import Mathlib

/-!
Verification of the TinyGolf scanline rasterizer and ball physics.

The definitions below are shallow embeddings of the MicroPython sources
(`rasterizer.py`, `scene.py`, `bake_chunk_data.py`).  Machine integers of the
source are modelled as `Int`; Python's floor division `//` is `Int.fdiv`;
the packed 32-bit rl fields of the source are unpacked into named fields of a
structure (the source packs `s`/`p` pairs into single 32-bit words purely as a
memory optimization).
-/

namespace TinyGolf

/-- Working state of one rasterized line (rl).  The source stores this as
eight packed 32-bit ints starting at `base`; here each packed component is a
named field.  Flag bits of `I_RL_FLAGS` are unpacked into `Bool` fields. -/
structure RL where
  s : Int
  p : Int
  s_b : Int
  p_b : Int
  s_e : Int
  p_e : Int
  a : Int
  a_s : Int
  a_p : Int
  scanline_has_endpoint : Bool
  delta_p_is_positive : Bool
  is_past_exit : Bool
  a_m_is_a_p : Bool
  correct_endpoints : Bool
  mask_layer : Int
  region0 : Int
  region1 : Int
  payload0 : Int
  payload1 : Int
  deriving Repr, DecidableEq

/-- Sentinel for `p_e` ("don't correct"), `RL_P_E_DONT_CORRECT` in the source. -/
def RL_P_E_DONT_CORRECT : Int := 0x00007fff

/-- Number of drawable regions (`RL_NUM_REGIONS`). -/
def RL_NUM_REGIONS : Int := 8

/-- Sentinel region id for unused regions (`RL_REGION_UNUSED`). -/
def RL_REGION_UNUSED : Int := RL_NUM_REGIONS

/-- Translation of `rl_init` from `rasterizer.py`.  Initializes the rl to
describe, in each scanline, the first pixel filled by the line from
`(p_b, s_b)` to `(p_e, s_e)` (requires `s_e >= s_b`), or the pixel past the
last filled pixel if `is_past_exit`. -/
def rl_init (s_b p_b s_e p_e region0 region1 payload0 payload1 mask_layer : Int)
    (is_past_exit : Bool) : RL :=
  let d_s := s_e - s_b
  let d_p_raw := p_e - p_b
  let delta_p_is_positive := decide (0 ≤ d_p_raw)
  let d_p := if d_p_raw < 0 then -d_p_raw else d_p_raw
  let is_steep := decide (d_p > d_s)
  -- per-case outputs: (p, a, a_s, a_p, a_m_is_a_p, correct_endpoints, p_e)
  let out : Int × Int × Int × Int × Bool × Bool × Int :=
    if d_s = 0 then
      -- line parallel to scanline (or a point)
      let p := if is_past_exit
               then (if p_e > p_b then p_e else p_b) + 1
               else (if p_e < p_b then p_e else p_b)
      (p, 0, 0, 0, true, false, p_e)
    else if is_steep then
      -- steep: p can step several times per s
      let p := if delta_p_is_positive then p_b else p_b + 1
      let a := d_p
      let a_s := 2 * d_p
      let a_p := 2 * d_s
      if (delta_p_is_positive && is_past_exit)
          || (!delta_p_is_positive && !is_past_exit) then
        let num_steps_p := a.fdiv a_p + 1
        let a := a + a_s - num_steps_p * a_p
        let p := if delta_p_is_positive then p + num_steps_p else p - num_steps_p
        let p_e := if delta_p_is_positive then p_e + 1 else p_e
        (p, a, a_s, a_p, false, true, p_e)
      else
        (p, a, a_s, a_p, false, false, RL_P_E_DONT_CORRECT)
    else
      -- shallow or horizontal in p as s increases
      let p := if is_past_exit then p_b + 1 else p_b
      (p, d_s, 2 * d_p, 2 * d_s, true, false, RL_P_E_DONT_CORRECT)
  { s := s_b
    p := out.1
    s_b := s_b
    p_b := out.1  -- the source stores the adjusted initial p in sp_b
    s_e := s_e
    p_e := out.2.2.2.2.2.2
    a := out.2.1
    a_s := out.2.2.1
    a_p := out.2.2.2.1
    scanline_has_endpoint := true
    delta_p_is_positive := delta_p_is_positive
    is_past_exit := is_past_exit
    a_m_is_a_p := out.2.2.2.2.1
    correct_endpoints := out.2.2.2.2.2.1
    mask_layer := mask_layer
    region0 := region0
    region1 := region1
    payload0 := payload0
    payload1 := payload1 }

/-- Translation of `rl_increment_s` from `rasterizer.py`: advance the rl by one
scanline, or leave it unchanged if it is already at `s_e`.  The source's test
`(sp ^ sp_e) < 0x10000` compares the packed scanline halves, i.e. `s = s_e`. -/
def rl_increment_s (rl : RL) : RL :=
  if rl.s = rl.s_e then rl
  else
    let a_m := if rl.a_m_is_a_p then rl.a_p else rl.a_s
    let a := rl.a + rl.a_s
    let s := rl.s + 1
    let ap : Int × Int :=
      if a ≥ a_m then
        let num_steps_p := (a - a_m).fdiv rl.a_p + 1
        (a - num_steps_p * rl.a_p,
         if rl.delta_p_is_positive then rl.p + num_steps_p
         else rl.p - num_steps_p)
      else (a, rl.p)
    if s = rl.s_e then
      -- at endpoint scanline: set flag, apply sp correction if needed
      if rl.correct_endpoints then
        { rl with s := rl.s_e, p := rl.p_e, a := ap.1,
                  scanline_has_endpoint := true }
      else
        { rl with s := s, p := ap.2, a := ap.1,
                  scanline_has_endpoint := true }
    else
      { rl with s := s, p := ap.2, a := ap.1,
                scanline_has_endpoint := false }

/-- State of rl after `k` scanline increments from its initial state. -/
def rl_iter (rl : RL) (k : Nat) : RL := rl_increment_s^[k] rl

/-- Modelled from the spec: "a textbook Bresenham rasterization of the same
segment walked in the same direction".  This is the classic all-octant
error-accumulator Bresenham loop (state `(x0, y0, err)`; per step the doubled
error `e2` decides whether the x and/or the y coordinate advances).  `fuel`
bounds the iteration count; it is chosen large enough that the loop always
terminates by reaching `(x1, y1)` first. -/
def bresenhamSteps (fuel : Nat) (x0 y0 : Int) (x1 y1 dx dy sx sy : Int)
    (err : Int) : List (Int × Int) :=
  match fuel with
  | 0 => [(x0, y0)]
  | fuel + 1 =>
    if x0 = x1 ∧ y0 = y1 then [(x0, y0)]
    else
      let e2 := 2 * err
      let x0' := if e2 > dy then x0 + sx else x0
      let err1 := if e2 > dy then err + dy else err
      let y0' := if e2 ≤ dx then y0 + sy else y0
      let err2 := if e2 ≤ dx then err1 + dx else err1
      (x0, y0) :: bresenhamSteps fuel x0' y0' x1 y1 dx dy sx sy err2

/-- Modelled from the spec: the reference Bresenham rasterization of the
segment from `(x0, y0)` to `(x1, y1)`, as the list of pixels it plots, in walk
order. -/
def bresenhamLine (x0 y0 x1 y1 : Int) : List (Int × Int) :=
  let dx := |x1 - x0|
  let dy := -|y1 - y0|
  let sx : Int := if x0 < x1 then 1 else -1
  let sy : Int := if y0 < y1 then 1 else -1
  bresenhamSteps (dx - dy).toNat x0 y0 x1 y1 dx dy sx sy (dx + dy)

/-! Payload buffer (`PayloadBuffer` in `rasterizer.py`).  Only the dimension
bookkeeping is modelled; the cell contents play no role in the claims. -/

/-- Capacity of the payload buffer in cells (`PB_MAX_PIXELS`). -/
def PB_MAX_PIXELS : Int := 1024

/-- Dimension state of a `PayloadBuffer`. -/
structure PayloadBuffer where
  width : Int
  height : Int
  deriving Repr, DecidableEq

/-- Translation of `PayloadBuffer.set_dimensions`: raises a `RuntimeError` when
`width * height` exceeds the fixed capacity, before any field is assigned, so
on the error path the stored dimensions are those of the input state. -/
def PayloadBuffer.set_dimensions (pb : PayloadBuffer) (width height : Int) :
    PayloadBuffer × Option String :=
  if width * height > PB_MAX_PIXELS then
    (pb, some "setting too-large payload buffer")
  else
    ({ pb with width := width, height := height }, none)

/-! Scanline rasterizer bookkeeping (`ScanlineRasterizer` in `rasterizer.py`). -/

/-- Maximum number of rl in a `ScanlineRasterizer` (`SR_MAX_NUM_RL`). -/
def SR_MAX_NUM_RL : Int := 512

/-- Result of `ScanlineRasterizer._allocate_rl`, modelled on the `num_rl`
counter: the slot index handed out, the updated counter, and whether the
"allocating too many rl" diagnostic was printed.  The source never raises on
this path (the function is total). -/
structure AllocResult where
  slot : Int
  num_rl : Int
  diagnostic : Bool
  deriving Repr, DecidableEq

/-- Translation of `ScanlineRasterizer._allocate_rl`: when the pool is full the
last slot is handed out again (stomping the rl stored there) and a diagnostic
is printed; otherwise the next free slot is handed out. -/
def allocate_rl (num_rl : Int) : AllocResult :=
  if num_rl = SR_MAX_NUM_RL then
    { slot := num_rl - 1, num_rl := num_rl, diagnostic := true }
  else
    { slot := num_rl, num_rl := num_rl + 1, diagnostic := false }

/-- Bias added to screen x/y to form s/p values (`RL_SP_BIAS`). -/
def RL_SP_BIAS : Int := 0x4000

/-- Translation of `ScanlineRasterizer.add_edge_line_fill`, returning the list
of rl instances the call initializes (in allocation order).  The enter rl, when
needed, is allocated before the past-exit rl, as in the source. -/
def add_edge_line_fill (x_b y_b x_e y_e region_line region_fill payload_line
    payload_fill mask_layer : Int) : List RL :=
  let s_b0 := x_b + RL_SP_BIAS
  let p_b0 := y_b + RL_SP_BIAS
  let s_e0 := x_e + RL_SP_BIAS
  let p_e0 := y_e + RL_SP_BIAS
  let has_line := region_line ≠ RL_REGION_UNUSED
  let is_single_scanline := s_e0 = s_b0
  let winding_is_past_exit := s_e0 > s_b0
  -- normalize endpoint order for rl_init
  let s_b := if winding_is_past_exit then s_b0 else s_e0
  let p_b := if winding_is_past_exit then p_b0 else p_e0
  let s_e := if winding_is_past_exit then s_e0 else s_b0
  let p_e := if winding_is_past_exit then p_e0 else p_b0
  let need_enter := has_line ∨ is_single_scanline ∨ ¬winding_is_past_exit
  let region_fill_enter :=
    if is_single_scanline ∨ ¬winding_is_past_exit then region_fill
    else RL_REGION_UNUSED
  let need_past_exit := has_line ∨ is_single_scanline ∨ winding_is_past_exit
  let region_fill_past_exit :=
    if is_single_scanline ∨ winding_is_past_exit then region_fill
    else RL_REGION_UNUSED
  (if need_enter then
    [rl_init s_b p_b s_e p_e region_line region_fill_enter payload_line
      payload_fill mask_layer false]
   else []) ++
  (if need_past_exit then
    [rl_init s_b p_b s_e p_e region_line region_fill_past_exit payload_line
      payload_fill mask_layer true]
   else [])

/-! The per-rl insideness update and the span flush of
`ScanlineRasterizer.rasterize_to_buffer`. -/

/-- Signed insideness contribution of an rl on its current scanline, from the
body of `rasterize_to_buffer`: magnitude 2, or 1 when the scanline holds an
endpoint of the rl, negated for the past-exit variant. -/
def rl_delta_inside (rl : RL) : Int :=
  let d : Int := if rl.scanline_has_endpoint then 1 else 2
  if rl.is_past_exit then -d else d

/-- Translation of the insideness bookkeeping of `rasterize_to_buffer` for one
rl on one scanline: if the rl's layer mask intersects the mask being drawn, add
`rl_delta_inside` to the counter of each of the rl's two regions (the source
performs the two `+=` updates in sequence on `arr_region_insideness`). -/
def apply_rl_insideness (rl : RL) (mask_layer : Int) (ins : Int → Int) :
    Int → Int :=
  if Int.land rl.mask_layer mask_layer ≠ 0 then
    let d := rl_delta_inside rl
    let ins1 : Int → Int :=
      fun r => if r = rl.region0 then ins r + d else ins r
    fun r => if r = rl.region1 then ins1 r + d else ins1 r
  else ins

/-- Translation of the span-flush region selection of `rasterize_to_buffer`:
the loop `for i_reg in range(RL_NUM_REGIONS)` draws the first region with
positive insideness and breaks; if none is positive nothing is drawn.  Index
`RL_REGION_UNUSED = 8` is outside the range scanned. -/
def flush_region (ins : Int → Int) : Option Int :=
  ((List.range RL_NUM_REGIONS.toNat).map (Int.ofNat ·)).find?
    (fun r => decide (0 < ins r))

/-! Chunk data (`ChunkData` in `scene.py` and `bake_chunk_data.py`; the two
copies share the chunk layout, the query logic and the capacity check).  The
backing `array('h')` is modelled as a total map from index to the stored
value; all values the program stores fit in 16 bits, so the sign-extension
reads `(x << 16) >> 16` of the source are the identity on them. -/

/-- Capacity of the chunk array (`MAX_NUM_CHUNKS`). -/
def MAX_NUM_CHUNKS : Int := 192

/-- Field offsets within a chunk record. -/
def I_CHUNK_IF_LOOP_MASK_TRIGGER_LAYER : Int := 0

/-- Loop-header field: fill region id. -/
def I_CHUNK_LOOP_REGION_FILL : Int := 1

/-- Loop-header field: number of edges in the loop. -/
def I_CHUNK_LOOP_NUM_EDGES : Int := 2

/-- Loop-header field: chunk index of the previous loop. -/
def I_CHUNK_LOOP_LAST_LOOP : Int := 3

/-- Edge field: x of the edge's begin vertex. -/
def I_CHUNK_EDGE_X_B : Int := 1

/-- Edge field: y of the edge's begin vertex. -/
def I_CHUNK_EDGE_Y_B : Int := 2

/-- Edge field: region id to draw the edge's outline as. -/
def I_CHUNK_EDGE_REGION_LINE : Int := 3

/-- Number of 16-bit fields per chunk record. -/
def I_CHUNK_NUM_FIELDS : Int := 4

/-- Pointwise update of a modelled array. -/
def updArr (f : Int → Int) (i v : Int) : Int → Int :=
  fun j => if j = i then v else f j

/-- The chunk-data state: the backing field array and the chunk count, plus
the build cursor `i_acd_last_loop` used by the authoring operations of
`bake_chunk_data.py`. -/
structure ChunkData where
  arr_chunk_data : Int → Int
  num_chunks : Int
  i_acd_last_loop : Int

/-- Translation of `ChunkData._get_i_acd_next_chunk` (`bake_chunk_data.py`):
raises when the chunk array is full — before any mutation — and otherwise
appends a fresh zero-edge terminator loop and returns the index (into
`arr_chunk_data`) of the former terminator, which the caller will overwrite. -/
def ChunkData.get_i_acd_next_chunk (cd : ChunkData) :
    (Int × ChunkData) × Option String :=
  if cd.num_chunks ≥ MAX_NUM_CHUNKS then
    ((0, cd), some "too many chunks")
  else
    let i_acd_loop := cd.num_chunks * 4
    let arr := cd.arr_chunk_data
    let arr := updArr arr (i_acd_loop + I_CHUNK_IF_LOOP_MASK_TRIGGER_LAYER) 1
    let arr := updArr arr (i_acd_loop + I_CHUNK_LOOP_REGION_FILL)
      RL_REGION_UNUSED
    let arr := updArr arr (i_acd_loop + I_CHUNK_LOOP_NUM_EDGES) 0
    let arr := updArr arr (i_acd_loop + I_CHUNK_LOOP_LAST_LOOP)
      (cd.i_acd_last_loop.fdiv 4)
    ((i_acd_loop - I_CHUNK_NUM_FIELDS,
      { cd with arr_chunk_data := arr, num_chunks := cd.num_chunks + 1 }),
     none)

/-- Translation of `ChunkData.add_loop` (`bake_chunk_data.py`): validates the
masks, then starts a new loop.  On either error path the chunk data is
returned unmodified, as the source raises before mutating. -/
def ChunkData.add_loop (cd : ChunkData)
    (region_fill mask_layer mask_trigger : Int) : ChunkData × Option String :=
  if mask_layer ≤ 0 ∨ mask_trigger < 0 ∨ mask_layer > 0xf ∨
      mask_trigger > 0xf then
    (cd, some "bad layer/trigger masks")
  else
    match cd.get_i_acd_next_chunk with
    | (_, some e) => (cd, some e)
    | ((i_acd_loop, cd'), none) =>
      let arr := cd'.arr_chunk_data
      let arr := updArr arr (i_acd_loop + I_CHUNK_IF_LOOP_MASK_TRIGGER_LAYER)
        (mask_trigger * 256 + mask_layer)
      let arr := updArr arr (i_acd_loop + I_CHUNK_LOOP_REGION_FILL) region_fill
      ({ cd' with arr_chunk_data := arr, i_acd_last_loop := i_acd_loop }, none)

/-- Translation of `ChunkData.loop_add_edge` (`bake_chunk_data.py`): appends an
edge chunk to the most recent loop.  On the capacity error path the chunk data
is returned unmodified. -/
def ChunkData.loop_add_edge (cd : ChunkData) (x y region_line : Int) :
    ChunkData × Option String :=
  match cd.get_i_acd_next_chunk with
  | (_, some e) => (cd, some e)
  | ((i_acd_edge, cd'), none) =>
    let arr := cd'.arr_chunk_data
    let arr := updArr arr (cd'.i_acd_last_loop + I_CHUNK_LOOP_NUM_EDGES)
      (arr (cd'.i_acd_last_loop + I_CHUNK_LOOP_NUM_EDGES) + 1)
    let arr := updArr arr (i_acd_edge + I_CHUNK_IF_LOOP_MASK_TRIGGER_LAYER) 0
    let arr := updArr arr (i_acd_edge + I_CHUNK_EDGE_X_B) x
    let arr := updArr arr (i_acd_edge + I_CHUNK_EDGE_Y_B) y
    let arr := updArr arr (i_acd_edge + I_CHUNK_EDGE_REGION_LINE) region_line
    ({ cd' with arr_chunk_data := arr }, none)

/-- Translation of `ChunkData.chunk_is_loop` (`scene.py`): errors on an
out-of-range chunk index, else reports whether the chunk is a loop header.
The queries are pure reads, so the chunk data is unchanged by construction. -/
def ChunkData.chunk_is_loop (cd : ChunkData) (i_chunk : Int) :
    Except String Bool :=
  if i_chunk ≥ cd.num_chunks then
    .error "chunk index out of range"
  else
    .ok (cd.arr_chunk_data (i_chunk * 4 + I_CHUNK_IF_LOOP_MASK_TRIGGER_LAYER)
      ≠ 0)

/-- Translation of `ChunkData.chunk_edge_get_endpoints` (`scene.py`): errors on
an out-of-range index or on a loop-header chunk; otherwise returns the edge's
begin vertex and the begin vertex of the next edge, following the terminator
loop's back-link to wrap to the loop's first edge. -/
def ChunkData.chunk_edge_get_endpoints (cd : ChunkData) (i_chunk : Int) :
    Except String (Int × Int × Int × Int) :=
  if i_chunk ≥ cd.num_chunks then
    .error "chunk index out of range"
  else
    let arr := cd.arr_chunk_data
    let i_acd_chunk := i_chunk * 4
    if arr (i_acd_chunk + I_CHUNK_IF_LOOP_MASK_TRIGGER_LAYER) ≠ 0 then
      .error "chunk is not an edge"
    else
      let x_b := arr (i_acd_chunk + I_CHUNK_EDGE_X_B)
      let y_b := arr (i_acd_chunk + I_CHUNK_EDGE_Y_B)
      let i_acd_next := i_acd_chunk + I_CHUNK_NUM_FIELDS
      let i_acd_end :=
        if arr (i_acd_next + I_CHUNK_IF_LOOP_MASK_TRIGGER_LAYER) ≠ 0 then
          (arr (i_acd_next + I_CHUNK_LOOP_LAST_LOOP) + 1) * 4
        else i_acd_next
      .ok (x_b, y_b, arr (i_acd_end + I_CHUNK_EDGE_X_B),
           arr (i_acd_end + I_CHUNK_EDGE_Y_B))

/-! Transformed rasterizer (`TransformedRasterizer` in `scene.py`).  The trig
helpers `sin_wd_f10` / `cos_wd_f10` of the source go through floating-point
`math.sin` / `math.cos`; they are modelled as function parameters `sinT` /
`cosT` wherever they are consulted, so the theorems below hold for every
possible trig table. -/

/-- Translation of `wd_init`: wrap an angle in degrees to `[0, 360)` (Python's
`%` on a positive modulus, which is `Int.emod`). -/
def wd_init (angle_degrees : Int) : Int := angle_degrees % 360

/-- Bit marking non-wall region payloads (`MGS_PAYLOAD_BIT_NON_WALL`). -/
def MGS_PAYLOAD_BIT_NON_WALL : Int := 2048

/-- Mask extracting the low payload bits (`MGS_PAYLOAD_MASK_LOW`). -/
def MGS_PAYLOAD_MASK_LOW : Int := MGS_PAYLOAD_BIT_NON_WALL - 1

/-- State of a `TransformedRasterizer`.  `rasterizer_edges` stands for the rl
instances currently submitted to the owned `ScanlineRasterizer` (the source
keeps them in the rasterizer's pool; `_set_rasterizer_geometry` clears and
refills them). -/
structure TransformedRasterizer where
  update_rasterizer_geometry : Bool
  chunk_data : ChunkData
  scale_f10 : Int
  inv_scale_f10 : Int
  angle_wd : Int
  cos_f10 : Int
  sin_f10 : Int
  translate_screen_x : Int
  translate_screen_y : Int
  xw_last_draw_f10 : Int
  yw_last_draw_f10 : Int
  xs_last_draw : Int
  ys_last_draw : Int
  xw_next_draw_f10 : Int
  yw_next_draw_f10 : Int
  delta_x_accum : Int
  delta_y_accum : Int
  rasterizer_edges : List RL

/-- Translation of `TransformedRasterizer.world_to_screen_f10`: scale, rotate,
then translate, in Q10 fixed point (`>> 10` of the source is floor division by
1024). -/
def TransformedRasterizer.world_to_screen_f10 (tr : TransformedRasterizer)
    (x_world_f10 y_world_f10 : Int) : Int × Int :=
  let x_f10 := (x_world_f10 * tr.scale_f10 + 0x200).fdiv 1024
  let y_f10 := (y_world_f10 * tr.scale_f10 + 0x200).fdiv 1024
  let x_f20 := x_f10 * tr.cos_f10 - y_f10 * tr.sin_f10
  let y_f20 := x_f10 * tr.sin_f10 + y_f10 * tr.cos_f10
  ((x_f20 + 0x200).fdiv 1024 + tr.translate_screen_x * 1024,
   (y_f20 + 0x200).fdiv 1024 + tr.translate_screen_y * 1024)

/-- Translation of `TransformedRasterizer.set_scale_f10`: marks the rasterizer
geometry for re-submission and stores the new scale and its Q20 inverse. -/
def TransformedRasterizer.set_scale_f10 (tr : TransformedRasterizer)
    (scale_f10 : Int) : TransformedRasterizer :=
  { tr with update_rasterizer_geometry := true
            scale_f10 := scale_f10
            inv_scale_f10 := (0x100000 : Int).fdiv scale_f10 }

/-- Translation of `TransformedRasterizer.set_angle_wd` with the trig tables
supplied as parameters: marks the geometry for re-submission and stores the
wrapped angle and its sine/cosine. -/
def TransformedRasterizer.set_angle_wd (tr : TransformedRasterizer)
    (sinT cosT : Int → Int) (angle_degrees : Int) : TransformedRasterizer :=
  let wd := wd_init angle_degrees
  { tr with update_rasterizer_geometry := true
            angle_wd := wd
            cos_f10 := cosT wd
            sin_f10 := sinT wd }

/-- Translation of `TransformedRasterizer.set_translate_screen`: the source
explicitly does NOT force an update of the rasterizer geometry. -/
def TransformedRasterizer.set_translate_screen (tr : TransformedRasterizer)
    (x y : Int) : TransformedRasterizer :=
  { tr with translate_screen_x := x, translate_screen_y := y }

/-- Translation of `TransformedRasterizer.add_to_translate_screen`: the source
explicitly does NOT force an update of the rasterizer geometry. -/
def TransformedRasterizer.add_to_translate_screen (tr : TransformedRasterizer)
    (delta_x delta_y : Int) : TransformedRasterizer :=
  { tr with translate_screen_x := tr.translate_screen_x + delta_x
            translate_screen_y := tr.translate_screen_y + delta_y }

/-- Translation of
`TransformedRasterizer.set_translate_map_world_to_screen_f10`: adjusts the
screen translation so `(xw, yw)` maps to `(xs, ys)`, stashing `(xw, yw)` to
drive the fill-pattern translation; does NOT force a geometry update. -/
def TransformedRasterizer.set_translate_map_world_to_screen_f10
    (tr : TransformedRasterizer) (xw_f10 yw_f10 xs_f10 ys_f10 : Int) :
    TransformedRasterizer :=
  let tr := { tr with xw_next_draw_f10 := xw_f10, yw_next_draw_f10 := yw_f10 }
  let sa := tr.world_to_screen_f10 xw_f10 yw_f10
  let xs_actual := (sa.1 + 0x200).fdiv 1024
  let ys_actual := (sa.2 + 0x200).fdiv 1024
  let xs_desired := (xs_f10 + 0x200).fdiv 1024
  let ys_desired := (ys_f10 + 0x200).fdiv 1024
  { tr with translate_screen_x := tr.translate_screen_x + xs_desired - xs_actual
            translate_screen_y :=
              tr.translate_screen_y + ys_desired - ys_actual }

/-- Scale-then-rotate transform applied to a chunk vertex by
`_set_rasterizer_geometry` (Q0 input, Q10 scale/trig, rounded back to Q0; the
screen translation is deliberately NOT applied — it is handled by the window
offset at rasterization time). -/
def transform_chunk_vertex (scale_f10 cos_f10 sin_f10 x y : Int) : Int × Int :=
  let xs := x * scale_f10
  let ys := y * scale_f10
  let xr := xs * cos_f10 - ys * sin_f10
  let yr := xs * sin_f10 + ys * cos_f10
  ((xr + 0x80000).fdiv 1048576, (yr + 0x80000).fdiv 1048576)

/-- Inner loop of `_set_rasterizer_geometry`: adds the edge ending at each
successive edge chunk of one loop, rolling the previous edge's start vertex,
line region, and line payload forward. -/
def srg_edges (arr : Int → Int) (scale_f10 cos_f10 sin_f10 : Int)
    (region_fill payload_fill mask_layer : Int)
    (x_b y_b region_line payload_line i_acd_edge i_acd_stop : Int)
    (fuel : Nat) : List RL :=
  match fuel with
  | 0 => []
  | fuel + 1 =>
    if i_acd_edge < i_acd_stop then
      let x := arr (i_acd_edge + I_CHUNK_EDGE_X_B)
      let y := arr (i_acd_edge + I_CHUNK_EDGE_Y_B)
      let v := transform_chunk_vertex scale_f10 cos_f10 sin_f10 x y
      add_edge_line_fill x_b y_b v.1 v.2 region_line region_fill payload_line
        payload_fill mask_layer ++
      srg_edges arr scale_f10 cos_f10 sin_f10 region_fill payload_fill
        mask_layer v.1 v.2 (arr (i_acd_edge + I_CHUNK_EDGE_REGION_LINE))
        (i_acd_edge.fdiv 4) (i_acd_edge + I_CHUNK_NUM_FIELDS) i_acd_stop fuel
    else []

/-- Outer loop of `_set_rasterizer_geometry`: walks the chunk records,
skipping empty loops, and submits every edge of every non-empty loop. -/
def srg_loops (arr : Int → Int) (scale_f10 cos_f10 sin_f10 : Int)
    (i_acd_loop i_acd_end : Int) (fuel : Nat) : List RL :=
  match fuel with
  | 0 => []
  | fuel + 1 =>
    if i_acd_loop < i_acd_end then
      let mtl := arr (i_acd_loop + I_CHUNK_IF_LOOP_MASK_TRIGGER_LAYER)
      let mask_trigger := mtl.fdiv 256
      let mask_layer := Int.land mtl 0xff
      let region_fill := arr (i_acd_loop + I_CHUNK_LOOP_REGION_FILL)
      let payload_fill :=
        Int.lor (Int.lor region_fill MGS_PAYLOAD_BIT_NON_WALL)
          (mask_trigger * 4096)
      let num_edges_loop := arr (i_acd_loop + I_CHUNK_LOOP_NUM_EDGES)
      if num_edges_loop = 0 then
        srg_loops arr scale_f10 cos_f10 sin_f10
          (i_acd_loop + I_CHUNK_NUM_FIELDS) i_acd_end fuel
      else
        let i_acd_edge_last := i_acd_loop + 4 * num_edges_loop
        let x := arr (i_acd_edge_last + I_CHUNK_EDGE_X_B)
        let y := arr (i_acd_edge_last + I_CHUNK_EDGE_Y_B)
        let v := transform_chunk_vertex scale_f10 cos_f10 sin_f10 x y
        srg_edges arr scale_f10 cos_f10 sin_f10 region_fill payload_fill
          mask_layer v.1 v.2
          (arr (i_acd_edge_last + I_CHUNK_EDGE_REGION_LINE))
          (i_acd_edge_last.fdiv 4) (i_acd_loop + I_CHUNK_NUM_FIELDS)
          (i_acd_edge_last + I_CHUNK_NUM_FIELDS) num_edges_loop.toNat ++
        srg_loops arr scale_f10 cos_f10 sin_f10
          (i_acd_edge_last + I_CHUNK_NUM_FIELDS) i_acd_end fuel
    else []

/-- Translation of `TransformedRasterizer._set_rasterizer_geometry`: the rl
instances submitted to the rasterizer for the current chunk data, scale and
rotation.  The screen translation is not consulted (the source zeroes
`maybe_translate_screen_*`). -/
def TransformedRasterizer.set_rasterizer_geometry
    (tr : TransformedRasterizer) : List RL :=
  srg_loops tr.chunk_data.arr_chunk_data tr.scale_f10 tr.cos_f10 tr.sin_f10
    0 (I_CHUNK_NUM_FIELDS * tr.chunk_data.num_chunks)
    (tr.chunk_data.num_chunks.toNat + 1)

/-- Translation of `TransformedRasterizer._maybe_update_rasterizer_geometry`:
re-transforms and resubmits all edges exactly when the dirty flag is set, then
clears the flag. -/
def TransformedRasterizer.maybe_update_rasterizer_geometry
    (tr : TransformedRasterizer) : TransformedRasterizer :=
  if tr.update_rasterizer_geometry then
    { tr with rasterizer_edges := tr.set_rasterizer_geometry
              update_rasterizer_geometry := false }
  else tr

/-! Ball physics (`BallState` in `scene.py`).  As with the transformed
rasterizer, the floating-point helpers (`sin_wd_f10`, `cos_wd_f10`,
`sqrt_int`) are modelled as function parameters `sinT`, `cosT`, `sqrtT`.
The collision/terrain step `_advance_to_collision_axis_aligned` (which drives
a rasterizer and a payload buffer) is abstracted as a `Ball → Ball` parameter
of `advance`; the claims below only concern paths on which it is not run. -/

/-- Ball dimension constants. -/
def BALL_DIAMETER : Int := 5

/-- Floor of the ball radius. -/
def BALL_RADIUS_FLOOR : Int := 2

/-- Hole diameter in world units. -/
def BALL_HOLE_DIAMETER : Int := 9

/-- Squared hole capture radius, Q20. -/
def BALL_HOLE_RADIUS_SQ_F20 : Int := 21233664

/-- Slow-roll speed threshold, Q20. -/
def BALL_HOLE_SLOW_F20 : Int := 10240

/-- Maximum lip-deflection angle in degrees. -/
def BALL_HOLE_ANG_DEFLECT : Int := 60

/-- Maximum speed at which the ball can still enter the hole, Q10. -/
def BALL_HOLE_MAX_SPEED_ENTER_F10 : Int := 110

/-- Grass friction coefficient, Q20 per ms. -/
def BALL_COEFF_GRASS_F20 : Int := 15

/-- Sand friction coefficient, Q20 per ms. -/
def BALL_COEFF_SAND_F20 : Int := 100

/-- Fixed wall-friction speed penalty, Q20. -/
def BALL_SUBTR_WALL_F20 : Int := 24000

/-- Slope acceleration coefficient, Q20. -/
def BALL_COEFF_SLOPE_F20 : Int := 128

/-- Exponential-average coefficient for stop detection. -/
def BALL_COEFF_A : Int := 3

/-- Distance-to-average threshold for stop detection, Q10. -/
def BALL_DELTA_W_STOPPED_F10 : Int := 1024

/-- Time below the stop threshold before the ball counts as stopped, ms. -/
def BALL_MS_BEFORE_STOPPED : Int := 500

/-- Continuous water contact before the ball sinks, ms. -/
def BALL_MS_BEFORE_SINK : Int := 100

/-- Translation of `velocity_hits_normal_wd`: true if an object moving at
angle `v_angle_wd` would hit the edge side that a normal of angle `normal_wd`
extends outward from. -/
def velocity_hits_normal_wd (v_angle_wd normal_wd : Int) : Bool :=
  let diff0 := v_angle_wd - normal_wd
  let diff := if diff0 < 0 then -diff0 else diff0
  decide (diff > 90) && decide (diff < 270)

/-- Translation of `reflect_velocity_about_normal_wd`: the velocity angle
after reflecting off a surface with the given normal. -/
def reflect_velocity_about_normal_wd (v_angle_wd normal_wd : Int) : Int :=
  (normal_wd * 2 - v_angle_wd - 180) % 360

/-- Translation of `get_endpoint_normal_wd`: the effective normal at the
endpoint between two touched edges — the half vector of the shorter arc
between the two normals. -/
def get_endpoint_normal_wd (normal0_wd normal1_wd : Int) : Int :=
  let zero_to_one_wd := (normal1_wd - normal0_wd) % 360
  if zero_to_one_wd < 180 then
    (normal0_wd + zero_to_one_wd.fdiv 2) % 360
  else
    (normal0_wd + zero_to_one_wd.fdiv 2 + 180) % 360

/-- The physics state of the golf ball (`BallState.__init__`). -/
structure Ball where
  xw_f10 : Int
  yw_f10 : Int
  v_angle_wd : Int
  v_w_per_ms_f20 : Int
  maybe_i_chunk_contact0 : Int
  maybe_i_chunk_contact1 : Int
  mask_layer : Int
  water_ms : Int
  in_water : Bool
  xw_last_shot_f10 : Int
  yw_last_shot_f10 : Int
  xw_hole_f10 : Int
  yw_hole_f10 : Int
  on_sand : Bool
  in_hole : Bool
  ignore_hole_line : Bool
  is_stopped : Bool
  ms_below_stop_threshold : Int
  xw_exp_avg_f10 : Int
  yw_exp_avg_f10 : Int
  deriving Repr, DecidableEq

/-- Translation of `BallState._reset_is_stopped`: clears the stop tracker,
biasing the exponential average away from the ball. -/
def Ball.reset_is_stopped (b : Ball) : Ball :=
  { b with is_stopped := false
           ms_below_stop_threshold := 0
           xw_exp_avg_f10 := b.xw_f10 + 4096
           yw_exp_avg_f10 := b.yw_f10 + 4096 }

/-- Translation of `BallState._set_velocity_wd_f20`. -/
def Ball.set_velocity_wd_f20 (b : Ball) (angle_wd w_per_ms_f20 : Int) :
    Ball :=
  { b with v_angle_wd := wd_init angle_wd, v_w_per_ms_f20 := w_per_ms_f20 }

/-- Tail of `BallState._maybe_advance_to_hole_interaction` handling the
"hole line" crossing for a fast-moving ball newly close to the hole. -/
def Ball.hole_line_interaction (b : Ball) (sinT cosT sqrtT : Int → Int)
    (delta_ms w_range_f10 hole_radius_f10 : Int) : Bool × Ball :=
  if b.ignore_hole_line ∨ b.v_w_per_ms_f20 < BALL_HOLE_SLOW_F20 then
    (false, b)
  else
    let vx_unit_f10 := cosT b.v_angle_wd
    let vy_unit_f10 := sinT b.v_angle_wd
    let dist_signed :=
      ((b.xw_hole_f10 - b.xw_f10) * vx_unit_f10 +
        (b.yw_hole_f10 - b.yw_f10) * vy_unit_f10 + 0x200).fdiv 1024
    if dist_signed < 0 ∨ dist_signed > w_range_f10 then (false, b)
    else
      let xw_f10 := b.xw_f10 + (dist_signed * vx_unit_f10 + 0x200).fdiv 1024
      let yw_f10 := b.yw_f10 + (dist_signed * vy_unit_f10 + 0x200).fdiv 1024
      let adx0 := b.xw_hole_f10 - xw_f10
      let adx := if adx0 < 0 then -adx0 else adx0
      let ady0 := b.yw_hole_f10 - yw_f10
      let ady := if ady0 < 0 then -ady0 else ady0
      if adx > hole_radius_f10 ∨ ady > hole_radius_f10 then (false, b)
      else
        let dist_sq_f20 := adx * adx + ady * ady
        if dist_sq_f20 > BALL_HOLE_RADIUS_SQ_F20 then (false, b)
        else
          let b := { b with xw_f10 := xw_f10, yw_f10 := yw_f10
                            maybe_i_chunk_contact0 := -1
                            maybe_i_chunk_contact1 := -1
                            ignore_hole_line := true }
          let ms_sand := (dist_signed * delta_ms).fdiv w_range_f10
          let v1 := b.v_w_per_ms_f20 - BALL_COEFF_SAND_F20 * ms_sand
          let v2 := if v1 < 0 then 0 else v1
          let b := b.set_velocity_wd_f20 b.v_angle_wd v2
          let frac_max_entry_speed_f10 := v2.fdiv BALL_HOLE_MAX_SPEED_ENTER_F10
          let dist_w_to_hole_f10 := sqrtT dist_sq_f20
          let frac_towards_center_f10 :=
            1024 - (dist_w_to_hole_f10 * 2).fdiv BALL_HOLE_DIAMETER
          if frac_towards_center_f10 > frac_max_entry_speed_f10 then
            (true, Ball.reset_is_stopped { b with in_hole := true })
          else
            let frac_deflection_f10 :=
              1024 - frac_max_entry_speed_f10 * 2 + frac_towards_center_f10
            if frac_deflection_f10 < 0 then (true, b)
            else
              let delta_ang_deflect :=
                (frac_deflection_f10 * BALL_HOLE_ANG_DEFLECT + 0x200).fdiv 1024
              let dot := vy_unit_f10 * (xw_f10 - b.xw_hole_f10) -
                         vx_unit_f10 * (yw_f10 - b.yw_hole_f10)
              let ang := if dot > 0 then b.v_angle_wd + delta_ang_deflect
                         else b.v_angle_wd - delta_ang_deflect
              (true, b.set_velocity_wd_f20 ang v2)

/-- Translation of `BallState._maybe_advance_to_hole_interaction`: returns
whether the helper handled the timestep, together with the updated ball. -/
def Ball.maybe_advance_to_hole_interaction (b : Ball)
    (sinT cosT sqrtT : Int → Int) (delta_ms : Int) : Bool × Ball :=
  if b.in_hole then
    -- animate ball towards hole center
    let a_f10 := BALL_COEFF_A * delta_ms
    let xw := (a_f10 * b.xw_hole_f10 + (1024 - a_f10) * b.xw_f10 + 0x200).fdiv
      1024
    let yw := (a_f10 * b.yw_hole_f10 + (1024 - a_f10) * b.yw_f10 + 0x200).fdiv
      1024
    (true, { b with xw_f10 := xw, yw_f10 := yw })
  else
    let adx0 := b.xw_hole_f10 - b.xw_f10
    let adx := if adx0 < 0 then -adx0 else adx0
    let ady0 := b.yw_hole_f10 - b.yw_f10
    let ady := if ady0 < 0 then -ady0 else ady0
    let hole_radius_f10 := BALL_HOLE_DIAMETER * 512
    let w_range_f10 := (b.v_w_per_ms_f20 * delta_ms + 0x200).fdiv 1024
    if adx > hole_radius_f10 ∨ ady > hole_radius_f10 then
      -- not starting near hole: re-enable the hole-line logic
      let b := { b with ignore_hole_line := false }
      if adx - w_range_f10 > hole_radius_f10 ∨
          ady - w_range_f10 > hole_radius_f10 then
        (false, b)
      else
        b.hole_line_interaction sinT cosT sqrtT delta_ms w_range_f10
          hole_radius_f10
    else if b.v_w_per_ms_f20 < BALL_HOLE_SLOW_F20 then
      -- close to hole and moving slowly: roll in if past the lip
      let dist_sq_f20 := adx * adx + ady * ady
      if dist_sq_f20 < BALL_HOLE_RADIUS_SQ_F20 then
        (true, Ball.reset_is_stopped { b with in_hole := true })
      else
        b.hole_line_interaction sinT cosT sqrtT delta_ms w_range_f10
          hole_radius_f10
    else
      b.hole_line_interaction sinT cosT sqrtT delta_ms w_range_f10
        hole_radius_f10

/-- Translation of `BallState._maybe_resolve_collision`: reflect the velocity
off the up-to-two contact edges whose normals the velocity opposes, applying
the wall-friction speed penalty once if there is any true collision. -/
def Ball.maybe_resolve_collision (b : Ball) (normals : Int → Int) : Ball :=
  let normal0_wd := if 0 ≤ b.maybe_i_chunk_contact0 then
    normals b.maybe_i_chunk_contact0 else 0
  let is_collision0 := 0 ≤ b.maybe_i_chunk_contact0 &&
    velocity_hits_normal_wd b.v_angle_wd normal0_wd
  let normal1_wd := if 0 ≤ b.maybe_i_chunk_contact1 then
    normals b.maybe_i_chunk_contact1 else 0
  let is_collision1 := 0 ≤ b.maybe_i_chunk_contact1 &&
    velocity_hits_normal_wd b.v_angle_wd normal1_wd
  let v0 := b.v_w_per_ms_f20
  let v1 := if is_collision0 || is_collision1 then
    (if v0 - BALL_SUBTR_WALL_F20 < 0 then 0 else v0 - BALL_SUBTR_WALL_F20)
    else v0
  if is_collision0 && is_collision1 then
    b.set_velocity_wd_f20
      (reflect_velocity_about_normal_wd b.v_angle_wd
        (get_endpoint_normal_wd normal0_wd normal1_wd)) v1
  else if is_collision0 then
    b.set_velocity_wd_f20
      (reflect_velocity_about_normal_wd b.v_angle_wd normal0_wd) v1
  else if is_collision1 then
    b.set_velocity_wd_f20
      (reflect_velocity_about_normal_wd b.v_angle_wd normal1_wd) v1
  else b

/-- Translation of `BallState._update_stopped_tracking`: exponential moving
average of the ball position; the ball is marked stopped after staying close
to the average for long enough. -/
def Ball.update_stopped_tracking (b : Ball) (delta_ms : Int) : Ball :=
  let a_f10 := BALL_COEFF_A * delta_ms
  let xavg := (a_f10 * b.xw_f10 + (1024 - a_f10) * b.xw_exp_avg_f10 +
    0x200).fdiv 1024
  let yavg := (a_f10 * b.yw_f10 + (1024 - a_f10) * b.yw_exp_avg_f10 +
    0x200).fdiv 1024
  let adx0 := b.xw_f10 - xavg
  let adx := if adx0 < 0 then -adx0 else adx0
  let ady0 := b.yw_f10 - yavg
  let ady := if ady0 < 0 then -ady0 else ady0
  if adx < BALL_DELTA_W_STOPPED_F10 ∧ ady < BALL_DELTA_W_STOPPED_F10 then
    let ms := b.ms_below_stop_threshold + delta_ms
    { b with xw_exp_avg_f10 := xavg, yw_exp_avg_f10 := yavg
             ms_below_stop_threshold := ms
             is_stopped := if ms > BALL_MS_BEFORE_STOPPED then true
                           else b.is_stopped }
  else
    { b with xw_exp_avg_f10 := xavg, yw_exp_avg_f10 := yavg
             ms_below_stop_threshold := 0 }

/-- Translation of `BallState.advance`: no-op when stopped; otherwise try the
hole interaction, and only if it did not handle the timestep run the
collision/terrain step (`collision_step`, abstracted — in the source it
rasterizes the scene into a payload buffer) followed by collision resolution;
finally update the stop tracking. -/
def Ball.advance (b : Ball) (sinT cosT sqrtT : Int → Int)
    (collision_step : Ball → Ball) (normals : Int → Int) (delta_ms : Int) :
    Ball :=
  if b.is_stopped then b
  else
    let h := b.maybe_advance_to_hole_interaction sinT cosT sqrtT delta_ms
    let b2 := if h.1 then h.2
              else (collision_step h.2).maybe_resolve_collision normals
    b2.update_stopped_tracking delta_ms

/-- Size in rows that `BallState._advance_to_collision_axis_aligned` requests
for the collision payload buffer: the frame travel distance plus one plus
three ball radii (`payload_dim_y` at `scene.py:958`). -/
def collision_payload_dim_y (delta_w : Int) : Int :=
  delta_w + 1 + 3 * BALL_RADIUS_FLOOR

/-! Helper lemmas about the embedded definitions. -/

theorem rl_init_is_past_exit (s_b p_b s_e p_e r0 r1 pl0 pl1 ml : Int)
    (v : Bool) :
    (rl_init s_b p_b s_e p_e r0 r1 pl0 pl1 ml v).is_past_exit = v := by
  simp only [rl_init]

/-! Claim theorems. -/

/-- C4 counterexample: a fill-only edge (`region_line = RL_REGION_UNUSED`)
spanning more than one scanline produces a single rl, not two. -/
theorem c4_two_rl_counterexample :
    ¬ ((add_edge_line_fill 0 0 1 0 RL_REGION_UNUSED 7 0 0 1).length = 2) := by
  decide

/-- C4 (amended): every edge registered with a line region
(`region_line ≠ RL_REGION_UNUSED`) produces exactly two rl instances, the
enter variant followed by the past-exit variant of the same segment. -/
theorem c4_line_edge_two_rl (x_b y_b x_e y_e region_line region_fill
    payload_line payload_fill mask_layer : Int)
    (h : region_line ≠ RL_REGION_UNUSED) :
    ∃ rl_enter rl_past_exit,
      add_edge_line_fill x_b y_b x_e y_e region_line region_fill payload_line
        payload_fill mask_layer = [rl_enter, rl_past_exit] ∧
      rl_enter.is_past_exit = false ∧ rl_past_exit.is_past_exit = true := by
  simp only [add_edge_line_fill, ne_eq, h, not_false_eq_true, true_or,
    if_true, List.cons_append, List.nil_append]
  exact ⟨_, _, rfl, rl_init_is_past_exit _ _ _ _ _ _ _ _ _ false,
    rl_init_is_past_exit _ _ _ _ _ _ _ _ _ true⟩

/-- Witness for C4 (amended) at a concrete edge. -/
theorem c4_line_edge_two_rl_witness :
    (7 : Int) ≠ RL_REGION_UNUSED ∧
    ∃ rl_enter rl_past_exit,
      add_edge_line_fill 0 0 1 0 7 8 0 0 1 = [rl_enter, rl_past_exit] ∧
      rl_enter.is_past_exit = false ∧ rl_past_exit.is_past_exit = true :=
  ⟨by decide, c4_line_edge_two_rl 0 0 1 0 7 8 0 0 1 (by decide)⟩

/-- C6: when the rl pool already holds `SR_MAX_NUM_RL = 512` rl, allocating
another hands out the last occupied slot again (overwriting it rather than
appending), emits the diagnostic, and raises no exception (the translated
allocator is a total function); the rl count never exceeds the capacity. -/
theorem c6_allocate_rl_saturates (num_rl : Int) (h : num_rl ≤ SR_MAX_NUM_RL) :
    (allocate_rl num_rl).num_rl ≤ SR_MAX_NUM_RL ∧
    (num_rl = SR_MAX_NUM_RL →
      (allocate_rl num_rl).slot = SR_MAX_NUM_RL - 1 ∧
      (allocate_rl num_rl).num_rl = SR_MAX_NUM_RL ∧
      (allocate_rl num_rl).diagnostic = true) := by
  unfold allocate_rl
  unfold SR_MAX_NUM_RL at *
  split
  · simp_all
  · simp_all
    omega

/-- Witness for C6 at a full pool. -/
theorem c6_allocate_rl_saturates_witness :
    (512 : Int) ≤ SR_MAX_NUM_RL ∧
    ((allocate_rl 512).num_rl ≤ SR_MAX_NUM_RL ∧
     ((512 : Int) = SR_MAX_NUM_RL →
       (allocate_rl 512).slot = SR_MAX_NUM_RL - 1 ∧
       (allocate_rl 512).num_rl = SR_MAX_NUM_RL ∧
       (allocate_rl 512).diagnostic = true)) :=
  ⟨by decide, c6_allocate_rl_saturates 512 (by decide)⟩

/-- C9: the chunk-data operations fail fast on authoring errors.  Adding a
loop or an edge when the chunk array is at its fixed capacity reports an error
and returns the chunk data unchanged; querying `chunk_is_loop` or
`chunk_edge_get_endpoints` at an index at or beyond the chunk count reports an
error, as does `chunk_edge_get_endpoints` on a loop-header chunk (the queries
are pure reads, so they never modify the chunk data). -/
theorem c9_chunk_data_fail_fast (cd : ChunkData)
    (region_fill mask_layer mask_trigger x y region_line i_chunk : Int) :
    (cd.num_chunks ≥ MAX_NUM_CHUNKS →
      ((cd.add_loop region_fill mask_layer mask_trigger).2.isSome ∧
       (cd.add_loop region_fill mask_layer mask_trigger).1 = cd) ∧
      ((cd.loop_add_edge x y region_line).2.isSome ∧
       (cd.loop_add_edge x y region_line).1 = cd)) ∧
    (i_chunk ≥ cd.num_chunks →
      cd.chunk_is_loop i_chunk = .error "chunk index out of range" ∧
      cd.chunk_edge_get_endpoints i_chunk =
        .error "chunk index out of range") ∧
    (cd.chunk_is_loop i_chunk = .ok true →
      cd.chunk_edge_get_endpoints i_chunk = .error "chunk is not an edge") := by
  refine ⟨fun hfull => ⟨⟨?_, ?_⟩, ⟨?_, ?_⟩⟩, fun hout => ⟨?_, ?_⟩, fun hloop => ?_⟩
  · unfold ChunkData.add_loop ChunkData.get_i_acd_next_chunk
    split
    · simp
    · simp [if_pos hfull]
  · unfold ChunkData.add_loop ChunkData.get_i_acd_next_chunk
    split
    · simp
    · simp [if_pos hfull]
  · unfold ChunkData.loop_add_edge ChunkData.get_i_acd_next_chunk
    simp [if_pos hfull]
  · unfold ChunkData.loop_add_edge ChunkData.get_i_acd_next_chunk
    simp [if_pos hfull]
  · unfold ChunkData.chunk_is_loop
    simp only [if_pos hout]
  · unfold ChunkData.chunk_edge_get_endpoints
    simp only [if_pos hout]
  · unfold ChunkData.chunk_is_loop at hloop
    unfold ChunkData.chunk_edge_get_endpoints
    by_cases hrange : i_chunk ≥ cd.num_chunks
    · simp [if_pos hrange] at hloop
    · simp only [if_neg hrange] at hloop ⊢
      have : cd.arr_chunk_data (i_chunk * 4 +
          I_CHUNK_IF_LOOP_MASK_TRIGGER_LAYER) ≠ 0 := by
        simpa using hloop
      simp only [if_pos this]

/-- Witness for C9: a full chunk array rejects appends unchanged, and
out-of-range / wrong-kind queries report errors. -/
theorem c9_chunk_data_fail_fast_witness :
    (({ arr_chunk_data := fun _ => 0, num_chunks := 192,
        i_acd_last_loop := 0 } : ChunkData).num_chunks ≥ MAX_NUM_CHUNKS ∧
      ((({ arr_chunk_data := fun _ => 0, num_chunks := 192,
           i_acd_last_loop := 0 } : ChunkData).add_loop 7 1 0).2.isSome ∧
       (({ arr_chunk_data := fun _ => 0, num_chunks := 192,
           i_acd_last_loop := 0 } : ChunkData).loop_add_edge 4 5 7).2.isSome)) ∧
    (({ arr_chunk_data := fun _ => 1, num_chunks := 1,
        i_acd_last_loop := 0 } : ChunkData).chunk_is_loop 3 =
          .error "chunk index out of range" ∧
     ({ arr_chunk_data := fun _ => 1, num_chunks := 1,
        i_acd_last_loop := 0 } : ChunkData).chunk_edge_get_endpoints 0 =
          .error "chunk is not an edge") := by
  have h1 := c9_chunk_data_fail_fast
    { arr_chunk_data := fun _ => 0, num_chunks := 192, i_acd_last_loop := 0 }
    7 1 0 4 5 7 0
  have h2 := c9_chunk_data_fail_fast
    { arr_chunk_data := fun _ => 1, num_chunks := 1, i_acd_last_loop := 0 }
    7 1 0 4 5 7 3
  have h3 := c9_chunk_data_fail_fast
    { arr_chunk_data := fun _ => 1, num_chunks := 1, i_acd_last_loop := 0 }
    7 1 0 4 5 7 0
  refine ⟨⟨by decide, ?_, ?_⟩, ?_, ?_⟩
  · exact ((h1.1 (by decide)).1).1
  · exact ((h1.1 (by decide)).2).1
  · exact (h2.2.1 (by decide)).1
  · exact h3.2.2 (by rfl)

/-- C10: `set_dimensions` reports the `RuntimeError` exactly when
`width * height` exceeds the 1024-cell capacity, leaving the stored
dimensions unchanged in that case; consequently the collision step's sizing
(5 columns by `delta_w + 1 + 3 * BALL_RADIUS_FLOOR` rows) makes the call
raise, rather than degrade, once the frame travel distance pushes the product
past the capacity. -/
theorem c10_payload_buffer_capacity (pb : PayloadBuffer)
    (width height delta_w : Int) :
    ((pb.set_dimensions width height).2.isSome ↔
      width * height > PB_MAX_PIXELS) ∧
    (width * height > PB_MAX_PIXELS →
      (pb.set_dimensions width height).1 = pb) ∧
    (BALL_DIAMETER * collision_payload_dim_y delta_w > PB_MAX_PIXELS →
      (pb.set_dimensions BALL_DIAMETER (collision_payload_dim_y delta_w)).2 =
        some "setting too-large payload buffer") := by
  refine ⟨?_, fun hbig => ?_, fun hbig => ?_⟩
  · unfold PayloadBuffer.set_dimensions
    split <;> simp_all
  · unfold PayloadBuffer.set_dimensions
    simp only [if_pos hbig]
  · unfold PayloadBuffer.set_dimensions
    simp only [if_pos hbig]

/-- Witness for C10: travel distance 198 gives a 5 × 205 buffer request,
which exceeds the 1024-cell capacity and is rejected with dimensions kept. -/
theorem c10_payload_buffer_capacity_witness :
    ((5 : Int) * 205 > PB_MAX_PIXELS ∧
     BALL_DIAMETER * collision_payload_dim_y 198 > PB_MAX_PIXELS) ∧
    ((({ width := 1, height := 1 } : PayloadBuffer).set_dimensions
        5 205).1 = { width := 1, height := 1 } ∧
     (({ width := 1, height := 1 } : PayloadBuffer).set_dimensions
        BALL_DIAMETER (collision_payload_dim_y 198)).2 =
          some "setting too-large payload buffer") := by
  have h := c10_payload_buffer_capacity { width := 1, height := 1 } 5 205 198
  exact ⟨⟨by decide, by decide⟩, h.2.1 (by decide), h.2.2 (by decide)⟩

/-- C8: changing the scale or the rotation sets the geometry-dirty flag, so
the next draw recomputes and resubmits the transformed edges; changing only
the screen translation (by any of the three translation setters) leaves both
the dirty flag and the submitted geometry untouched, and the recomputed
geometry itself never depends on the screen translation. -/
theorem c8_dirty_flag_discipline (tr : TransformedRasterizer)
    (sinT cosT : Int → Int) (s ang x y dx dy xw yw xs ys : Int) :
    (tr.set_scale_f10 s).update_rasterizer_geometry = true ∧
    (tr.set_angle_wd sinT cosT ang).update_rasterizer_geometry = true ∧
    ((tr.set_translate_screen x y).update_rasterizer_geometry =
        tr.update_rasterizer_geometry ∧
      (tr.set_translate_screen x y).rasterizer_edges = tr.rasterizer_edges) ∧
    ((tr.add_to_translate_screen dx dy).update_rasterizer_geometry =
        tr.update_rasterizer_geometry ∧
      (tr.add_to_translate_screen dx dy).rasterizer_edges =
        tr.rasterizer_edges) ∧
    ((tr.set_translate_map_world_to_screen_f10 xw yw xs
        ys).update_rasterizer_geometry = tr.update_rasterizer_geometry ∧
      (tr.set_translate_map_world_to_screen_f10 xw yw xs ys).rasterizer_edges =
        tr.rasterizer_edges) ∧
    ((tr.set_scale_f10 s).maybe_update_rasterizer_geometry.rasterizer_edges =
      (tr.set_scale_f10 s).set_rasterizer_geometry) ∧
    ((tr.set_angle_wd sinT cosT
        ang).maybe_update_rasterizer_geometry.rasterizer_edges =
      (tr.set_angle_wd sinT cosT ang).set_rasterizer_geometry) ∧
    (tr.update_rasterizer_geometry = false →
      (tr.set_translate_screen x y).maybe_update_rasterizer_geometry =
        tr.set_translate_screen x y) ∧
    ((tr.set_translate_screen x y).set_rasterizer_geometry =
      tr.set_rasterizer_geometry) ∧
    ((tr.add_to_translate_screen dx dy).set_rasterizer_geometry =
      tr.set_rasterizer_geometry) := by
  refine ⟨rfl, rfl, ⟨rfl, rfl⟩, ⟨rfl, rfl⟩, ⟨rfl, rfl⟩, ?_, ?_, ?_, rfl, rfl⟩
  · unfold TransformedRasterizer.maybe_update_rasterizer_geometry
    rfl
  · unfold TransformedRasterizer.maybe_update_rasterizer_geometry
    rfl
  · intro hclean
    unfold TransformedRasterizer.maybe_update_rasterizer_geometry
    simp [TransformedRasterizer.set_translate_screen, hclean]

theorem update_stopped_tracking_in_hole (b : Ball) (delta_ms : Int) :
    (b.update_stopped_tracking delta_ms).in_hole = b.in_hole := by
  simp only [Ball.update_stopped_tracking]
  repeat' split
  all_goals rfl

/-- On the slow near-hole path, `_maybe_advance_to_hole_interaction` captures
the ball into the hole and reports the timestep as handled, independently of
the trig tables. -/
theorem maybe_advance_capture (b : Ball) (sinT cosT sqrtT : Int → Int)
    (delta_ms : Int) (hhole : b.in_hole = false)
    (hdist : (b.xw_hole_f10 - b.xw_f10) * (b.xw_hole_f10 - b.xw_f10) +
      (b.yw_hole_f10 - b.yw_f10) * (b.yw_hole_f10 - b.yw_f10) <
      BALL_HOLE_RADIUS_SQ_F20)
    (hslow : b.v_w_per_ms_f20 < BALL_HOLE_SLOW_F20) :
    b.maybe_advance_to_hole_interaction sinT cosT sqrtT delta_ms =
      (true, Ball.reset_is_stopped { b with in_hole := true }) := by
  have hradsq : BALL_HOLE_RADIUS_SQ_F20 = 4608 * 4608 := by decide
  rw [hradsq] at hdist
  set dx := b.xw_hole_f10 - b.xw_f10 with hdxdef
  set dy := b.yw_hole_f10 - b.yw_f10 with hdydef
  have hx1 : dx ≤ 4608 := by nlinarith [mul_self_nonneg dy, mul_self_nonneg (dx - 4608)]
  have hx2 : -4608 ≤ dx := by nlinarith [mul_self_nonneg dy, mul_self_nonneg (dx + 4608)]
  have hy1 : dy ≤ 4608 := by nlinarith [mul_self_nonneg dx, mul_self_nonneg (dy - 4608)]
  have hy2 : -4608 ≤ dy := by nlinarith [mul_self_nonneg dx, mul_self_nonneg (dy + 4608)]
  have hrad : BALL_HOLE_DIAMETER * 512 = (4608 : Int) := by decide
  unfold Ball.maybe_advance_to_hole_interaction
  rw [hhole]
  simp only [Bool.false_eq_true, if_false, hrad, ← hdxdef, ← hdydef]
  have habs : ¬((if dx < 0 then -dx else dx) > 4608 ∨
      (if dy < 0 then -dy else dy) > 4608) := by
    push_neg
    constructor
    · split <;> omega
    · split <;> omega
  rw [if_neg habs, if_pos hslow, if_pos ?hin]
  case hin =>
    rw [hradsq]
    split <;> split <;> nlinarith [hdist]

/-- C7: a ball that is not stopped and not already in the hole, whose position
is within the hole's capture radius and whose speed is below the slow-roll
threshold, is captured into the hole by a single `advance` call; the hole
helper reports the timestep handled, and the result does not depend on the
collision/terrain step (nor on the trig tables or edge normals it would
use). -/
theorem c7_slow_near_hole_capture (b : Ball)
    (sinT cosT sqrtT sinT2 cosT2 sqrtT2 : Int → Int)
    (collision_step collision_step2 : Ball → Ball)
    (normals normals2 : Int → Int) (delta_ms : Int)
    (hstop : b.is_stopped = false) (hhole : b.in_hole = false)
    (hdist : (b.xw_hole_f10 - b.xw_f10) * (b.xw_hole_f10 - b.xw_f10) +
      (b.yw_hole_f10 - b.yw_f10) * (b.yw_hole_f10 - b.yw_f10) <
      BALL_HOLE_RADIUS_SQ_F20)
    (hslow : b.v_w_per_ms_f20 < BALL_HOLE_SLOW_F20) :
    (b.advance sinT cosT sqrtT collision_step normals delta_ms).in_hole =
      true ∧
    (b.maybe_advance_to_hole_interaction sinT cosT sqrtT delta_ms).1 = true ∧
    b.advance sinT cosT sqrtT collision_step normals delta_ms =
      b.advance sinT2 cosT2 sqrtT2 collision_step2 normals2 delta_ms := by
  have h1 := maybe_advance_capture b sinT cosT sqrtT delta_ms hhole hdist hslow
  have h2 := maybe_advance_capture b sinT2 cosT2 sqrtT2 delta_ms hhole hdist
    hslow
  unfold Ball.advance
  rw [hstop]
  simp only [Bool.false_eq_true, if_false, h1, h2, if_pos rfl]
  refine ⟨?_, ?_, ?_⟩
  · rw [update_stopped_tracking_in_hole]
    rfl
  · trivial
  · trivial

/-- Witness for C7: a slow ball two world units from the hole center is
captured in one `advance` call. -/
theorem c7_slow_near_hole_capture_witness :
    (({ xw_f10 := 1024, yw_f10 := 2048, v_angle_wd := 15,
        v_w_per_ms_f20 := 5000, maybe_i_chunk_contact0 := -1,
        maybe_i_chunk_contact1 := -1, mask_layer := 15, water_ms := 0,
        in_water := false, xw_last_shot_f10 := 0, yw_last_shot_f10 := 0,
        xw_hole_f10 := 2048, yw_hole_f10 := 2048, on_sand := false,
        in_hole := false, ignore_hole_line := false, is_stopped := false,
        ms_below_stop_threshold := 0, xw_exp_avg_f10 := 0,
        yw_exp_avg_f10 := 0 } : Ball).advance (fun _ => 0) (fun _ => 1024)
          (fun _ => 0) id (fun _ => 0) 16).in_hole = true :=
  (c7_slow_near_hole_capture _ (fun _ => 0) (fun _ => 1024) (fun _ => 0)
    (fun _ => 0) (fun _ => 1024) (fun _ => 0) id id (fun _ => 0) (fun _ => 0)
    16 rfl rfl (by decide) (by decide)).1

/-- Witness for C8 on a concrete clean (non-dirty) transformed rasterizer. -/
theorem c8_dirty_flag_discipline_witness :
    (⟨false, ⟨fun _ => 0, 0, 0⟩, 1024, 1024, 0, 1024, 0, 0, 0, 0, 0, 0, 0, 0,
        0, 0, 0, []⟩ :
      TransformedRasterizer).update_rasterizer_geometry = false ∧
    ((⟨false, ⟨fun _ => 0, 0, 0⟩, 1024, 1024, 0, 1024, 0, 0, 0, 0, 0, 0, 0, 0,
        0, 0, 0, []⟩ :
      TransformedRasterizer).set_translate_screen 3
        4).maybe_update_rasterizer_geometry =
      (⟨false, ⟨fun _ => 0, 0, 0⟩, 1024, 1024, 0, 1024, 0, 0, 0, 0, 0, 0, 0, 0,
        0, 0, 0, []⟩ :
      TransformedRasterizer).set_translate_screen 3 4 :=
  ⟨rfl,
    (c8_dirty_flag_discipline
      ⟨false, ⟨fun _ => 0, 0, 0⟩, 1024, 1024, 0, 1024, 0, 0, 0, 0, 0, 0, 0, 0,
        0, 0, 0, []⟩
      (fun _ => 0) (fun _ => 1024) 2048 90 3 4 1 1 0 0 0 0).2.2.2.2.2.2.2.1
      rfl⟩

/-- C5: when exactly one of the up-to-two contact edges has a normal the
velocity opposes, the resolved velocity angle is
`(2 * normal - old_angle - 180) mod 360` and the speed drops by the fixed
wall-friction penalty, clamped at zero; with two opposing contacts the
penalty is still applied exactly once. -/
theorem c5_wall_collision_response (b : Ball) (normals : Int → Int) :
    ((0 ≤ b.maybe_i_chunk_contact0 ∧
      velocity_hits_normal_wd b.v_angle_wd
        (normals b.maybe_i_chunk_contact0) = true ∧
      (b.maybe_i_chunk_contact1 < 0 ∨
        velocity_hits_normal_wd b.v_angle_wd
          (normals b.maybe_i_chunk_contact1) = false)) →
      (b.maybe_resolve_collision normals).v_angle_wd =
        (2 * normals b.maybe_i_chunk_contact0 - b.v_angle_wd - 180) % 360 ∧
      (b.maybe_resolve_collision normals).v_w_per_ms_f20 =
        max 0 (b.v_w_per_ms_f20 - BALL_SUBTR_WALL_F20)) ∧
    ((0 ≤ b.maybe_i_chunk_contact1 ∧
      velocity_hits_normal_wd b.v_angle_wd
        (normals b.maybe_i_chunk_contact1) = true ∧
      (b.maybe_i_chunk_contact0 < 0 ∨
        velocity_hits_normal_wd b.v_angle_wd
          (normals b.maybe_i_chunk_contact0) = false)) →
      (b.maybe_resolve_collision normals).v_angle_wd =
        (2 * normals b.maybe_i_chunk_contact1 - b.v_angle_wd - 180) % 360 ∧
      (b.maybe_resolve_collision normals).v_w_per_ms_f20 =
        max 0 (b.v_w_per_ms_f20 - BALL_SUBTR_WALL_F20)) ∧
    ((0 ≤ b.maybe_i_chunk_contact0 ∧
      velocity_hits_normal_wd b.v_angle_wd
        (normals b.maybe_i_chunk_contact0) = true ∧
      0 ≤ b.maybe_i_chunk_contact1 ∧
      velocity_hits_normal_wd b.v_angle_wd
        (normals b.maybe_i_chunk_contact1) = true) →
      (b.maybe_resolve_collision normals).v_w_per_ms_f20 =
        max 0 (b.v_w_per_ms_f20 - BALL_SUBTR_WALL_F20)) := by
  unfold BALL_SUBTR_WALL_F20
  refine ⟨fun ⟨h0, hhit, hnot⟩ => ?_, fun ⟨h1, hhit, hnot⟩ => ?_,
    fun ⟨h0, hhit0, h1, hhit1⟩ => ?_⟩
  · have hcol1 : (decide (0 ≤ b.maybe_i_chunk_contact1) &&
        velocity_hits_normal_wd b.v_angle_wd
          (if 0 ≤ b.maybe_i_chunk_contact1 then
            normals b.maybe_i_chunk_contact1 else 0)) = false := by
      rcases hnot with hneg | hfalse
      · have : ¬ (0 ≤ b.maybe_i_chunk_contact1) := by omega
        simp [this]
      · by_cases hc1 : 0 ≤ b.maybe_i_chunk_contact1
        · simp [hc1, hfalse]
        · simp [hc1]
    simp only [Ball.maybe_resolve_collision, Ball.set_velocity_wd_f20, wd_init,
      BALL_SUBTR_WALL_F20, reflect_velocity_about_normal_wd]
    simp [h0, hhit, hcol1]
    constructor
    · omega
    · split <;> omega
  · have hcol0 : (decide (0 ≤ b.maybe_i_chunk_contact0) &&
        velocity_hits_normal_wd b.v_angle_wd
          (if 0 ≤ b.maybe_i_chunk_contact0 then
            normals b.maybe_i_chunk_contact0 else 0)) = false := by
      rcases hnot with hneg | hfalse
      · have : ¬ (0 ≤ b.maybe_i_chunk_contact0) := by omega
        simp [this]
      · by_cases hc0 : 0 ≤ b.maybe_i_chunk_contact0
        · simp [hc0, hfalse]
        · simp [hc0]
    simp only [Ball.maybe_resolve_collision, Ball.set_velocity_wd_f20, wd_init,
      BALL_SUBTR_WALL_F20, reflect_velocity_about_normal_wd]
    simp [h1, hhit, hcol0]
    constructor
    · omega
    · split <;> omega
  · simp only [Ball.maybe_resolve_collision, Ball.set_velocity_wd_f20, wd_init,
      BALL_SUBTR_WALL_F20]
    simp [h0, hhit0, h1, hhit1]
    split <;> omega

/-- Witness for C5: the spec's own example — a ball moving at angle 0 into a
wall of inward normal 180 reflects to angle 180 and loses the wall penalty. -/
theorem c5_wall_collision_response_witness :
    (0 : Int) ≤ 0 ∧ velocity_hits_normal_wd 0 180 = true ∧
    (({ xw_f10 := 0, yw_f10 := 0, v_angle_wd := 0, v_w_per_ms_f20 := 30000,
        maybe_i_chunk_contact0 := 0, maybe_i_chunk_contact1 := -1,
        mask_layer := 15, water_ms := 0, in_water := false,
        xw_last_shot_f10 := 0, yw_last_shot_f10 := 0, xw_hole_f10 := 0,
        yw_hole_f10 := 0, on_sand := false, in_hole := false,
        ignore_hole_line := false, is_stopped := false,
        ms_below_stop_threshold := 0, xw_exp_avg_f10 := 0,
        yw_exp_avg_f10 := 0 } : Ball).maybe_resolve_collision
          (fun _ => 180)).v_angle_wd = 180 ∧
    (({ xw_f10 := 0, yw_f10 := 0, v_angle_wd := 0, v_w_per_ms_f20 := 30000,
        maybe_i_chunk_contact0 := 0, maybe_i_chunk_contact1 := -1,
        mask_layer := 15, water_ms := 0, in_water := false,
        xw_last_shot_f10 := 0, yw_last_shot_f10 := 0, xw_hole_f10 := 0,
        yw_hole_f10 := 0, on_sand := false, in_hole := false,
        ignore_hole_line := false, is_stopped := false,
        ms_below_stop_threshold := 0, xw_exp_avg_f10 := 0,
        yw_exp_avg_f10 := 0 } : Ball).maybe_resolve_collision
          (fun _ => 180)).v_w_per_ms_f20 = 6000 := by
  have h := (c5_wall_collision_response
    { xw_f10 := 0, yw_f10 := 0, v_angle_wd := 0, v_w_per_ms_f20 := 30000,
      maybe_i_chunk_contact0 := 0, maybe_i_chunk_contact1 := -1,
      mask_layer := 15, water_ms := 0, in_water := false,
      xw_last_shot_f10 := 0, yw_last_shot_f10 := 0, xw_hole_f10 := 0,
      yw_hole_f10 := 0, on_sand := false, in_hole := false,
      ignore_hole_line := false, is_stopped := false,
      ms_below_stop_threshold := 0, xw_exp_avg_f10 := 0,
      yw_exp_avg_f10 := 0 } (fun _ => 180)).1
    ⟨by decide, by decide, Or.inl (by decide)⟩
  refine ⟨by decide, by decide, ?_, ?_⟩
  · rw [h.1]
    decide
  · rw [h.2]
    decide

/-! Lemmas on the scanline stepping of an rl: which fields an increment
preserves, and how the scanline and the endpoint flag evolve. -/

theorem rl_increment_s_fields (rl : RL) :
    (rl_increment_s rl).s_b = rl.s_b ∧
    (rl_increment_s rl).s_e = rl.s_e ∧
    (rl_increment_s rl).p_e = rl.p_e ∧
    (rl_increment_s rl).a_s = rl.a_s ∧
    (rl_increment_s rl).a_p = rl.a_p ∧
    (rl_increment_s rl).delta_p_is_positive = rl.delta_p_is_positive ∧
    (rl_increment_s rl).is_past_exit = rl.is_past_exit ∧
    (rl_increment_s rl).a_m_is_a_p = rl.a_m_is_a_p ∧
    (rl_increment_s rl).correct_endpoints = rl.correct_endpoints ∧
    (rl_increment_s rl).mask_layer = rl.mask_layer ∧
    (rl_increment_s rl).region0 = rl.region0 ∧
    (rl_increment_s rl).region1 = rl.region1 := by
  simp only [rl_increment_s]
  repeat' split
  all_goals simp

theorem rl_iter_fields (rl : RL) (k : Nat) :
    (rl_iter rl k).s_b = rl.s_b ∧
    (rl_iter rl k).s_e = rl.s_e ∧
    (rl_iter rl k).p_e = rl.p_e ∧
    (rl_iter rl k).a_s = rl.a_s ∧
    (rl_iter rl k).a_p = rl.a_p ∧
    (rl_iter rl k).delta_p_is_positive = rl.delta_p_is_positive ∧
    (rl_iter rl k).is_past_exit = rl.is_past_exit ∧
    (rl_iter rl k).a_m_is_a_p = rl.a_m_is_a_p ∧
    (rl_iter rl k).correct_endpoints = rl.correct_endpoints ∧
    (rl_iter rl k).mask_layer = rl.mask_layer ∧
    (rl_iter rl k).region0 = rl.region0 ∧
    (rl_iter rl k).region1 = rl.region1 := by
  induction k with
  | zero => exact ⟨rfl, rfl, rfl, rfl, rfl, rfl, rfl, rfl, rfl, rfl, rfl, rfl⟩
  | succ k ih =>
    have hstep := rl_increment_s_fields (rl_iter rl k)
    rw [rl_iter, Function.iterate_succ_apply'] at *
    exact ⟨hstep.1.trans ih.1, hstep.2.1.trans ih.2.1,
      hstep.2.2.1.trans ih.2.2.1, hstep.2.2.2.1.trans ih.2.2.2.1,
      hstep.2.2.2.2.1.trans ih.2.2.2.2.1,
      hstep.2.2.2.2.2.1.trans ih.2.2.2.2.2.1,
      hstep.2.2.2.2.2.2.1.trans ih.2.2.2.2.2.2.1,
      hstep.2.2.2.2.2.2.2.1.trans ih.2.2.2.2.2.2.2.1,
      hstep.2.2.2.2.2.2.2.2.1.trans ih.2.2.2.2.2.2.2.2.1,
      hstep.2.2.2.2.2.2.2.2.2.1.trans ih.2.2.2.2.2.2.2.2.2.1,
      hstep.2.2.2.2.2.2.2.2.2.2.1.trans ih.2.2.2.2.2.2.2.2.2.2.1,
      hstep.2.2.2.2.2.2.2.2.2.2.2.trans ih.2.2.2.2.2.2.2.2.2.2.2⟩

theorem rl_increment_s_s_of_ne (rl : RL) (h : rl.s ≠ rl.s_e) :
    (rl_increment_s rl).s = rl.s + 1 := by
  simp only [rl_increment_s, if_neg h]
  split
  next h1 =>
    split
    · simpa using h1.symm
    · rfl
  next h1 => rfl

theorem rl_increment_s_flag_of_ne (rl : RL) (h : rl.s ≠ rl.s_e) :
    (rl_increment_s rl).scanline_has_endpoint = decide (rl.s + 1 = rl.s_e) := by
  simp only [rl_increment_s, if_neg h]
  split
  next h1 =>
    split
    · simp [h1]
    · simp [h1]
  next h1 => simp [h1]

theorem rl_iter_s_of_le (rl : RL) (k : Nat) (hk : rl.s + k ≤ rl.s_e) :
    (rl_iter rl k).s = rl.s + k := by
  induction k with
  | zero => simp [rl_iter]
  | succ k ih =>
    have hk' : rl.s + k ≤ rl.s_e := by omega
    have hs := ih hk'
    have hse : (rl_iter rl k).s_e = rl.s_e := (rl_iter_fields rl k).2.1
    have hne : (rl_iter rl k).s ≠ (rl_iter rl k).s_e := by
      rw [hs, hse]; omega
    have hstep := rl_increment_s_s_of_ne _ hne
    show (rl_increment_s^[k + 1] rl).s = _
    rw [Function.iterate_succ_apply']
    rw [show rl_increment_s^[k] rl = rl_iter rl k from rfl, hstep, hs]
    push_cast
    ring

theorem rl_iter_flag_of_le (rl : RL) (k : Nat) (hk0 : 0 < k)
    (hk : rl.s + k ≤ rl.s_e) :
    (rl_iter rl k).scanline_has_endpoint = decide (rl.s + k = rl.s_e) := by
  obtain ⟨k, rfl⟩ : ∃ m, k = m + 1 := ⟨k - 1, by omega⟩
  have hk' : rl.s + k ≤ rl.s_e := by omega
  have hs := rl_iter_s_of_le rl k hk'
  have hse : (rl_iter rl k).s_e = rl.s_e := (rl_iter_fields rl k).2.1
  have hne : (rl_iter rl k).s ≠ (rl_iter rl k).s_e := by
    rw [hs, hse]; omega
  have hstep := rl_increment_s_flag_of_ne _ hne
  show (rl_increment_s^[k + 1] rl).scanline_has_endpoint = _
  rw [Function.iterate_succ_apply']
  rw [show rl_increment_s^[k] rl = rl_iter rl k from rfl, hstep, hs, hse]
  congr 1
  exact propext ⟨fun h => by omega, fun h => by omega⟩

/-- Initial field values established by `rl_init`. -/
theorem rl_init_fields (s_b p_b s_e p_e r0 r1 pl0 pl1 ml : Int) (v : Bool) :
    (rl_init s_b p_b s_e p_e r0 r1 pl0 pl1 ml v).s = s_b ∧
    (rl_init s_b p_b s_e p_e r0 r1 pl0 pl1 ml v).s_b = s_b ∧
    (rl_init s_b p_b s_e p_e r0 r1 pl0 pl1 ml v).s_e = s_e ∧
    (rl_init s_b p_b s_e p_e r0 r1 pl0 pl1 ml v).scanline_has_endpoint =
      true ∧
    (rl_init s_b p_b s_e p_e r0 r1 pl0 pl1 ml v).mask_layer = ml ∧
    (rl_init s_b p_b s_e p_e r0 r1 pl0 pl1 ml v).region0 = r0 ∧
    (rl_init s_b p_b s_e p_e r0 r1 pl0 pl1 ml v).region1 = r1 :=
  ⟨rfl, rfl, rfl, rfl, rfl, rfl, rfl⟩

/-- C2: when an rl produced by `rl_init` (either variant) is processed by the
composite scan on the scanline it reaches after `k` single-scanline steps, and
its layer mask intersects the mask being drawn, the insideness counters of its
two regions each change by a signed amount of magnitude 1 when that scanline
is an endpoint scanline of the edge (`k = 0` or `s_b + k = s_e`) and magnitude
2 on interior scanlines, positive for the enter variant and negative for the
past-exit variant; with a non-matching mask nothing changes. -/
theorem c2_insideness_contribution
    (s_b p_b s_e p_e region0 region1 payload0 payload1 ml mask : Int)
    (variant : Bool) (k : Nat) (ins : Int → Int)
    (hk : s_b + k ≤ s_e) :
    (Int.land ml mask ≠ 0 →
      ∀ r, apply_rl_insideness
        (rl_iter (rl_init s_b p_b s_e p_e region0 region1 payload0 payload1
          ml variant) k) mask ins r =
      ins r +
        (if r = region0 then
          (if k = 0 ∨ s_b + (k : Int) = s_e then 1 else 2) *
            (if variant then -1 else 1) else 0) +
        (if r = region1 then
          (if k = 0 ∨ s_b + (k : Int) = s_e then 1 else 2) *
            (if variant then -1 else 1) else 0)) ∧
    (Int.land ml mask = 0 →
      apply_rl_insideness
        (rl_iter (rl_init s_b p_b s_e p_e region0 region1 payload0 payload1
          ml variant) k) mask ins = ins) := by
  set rl0 := rl_init s_b p_b s_e p_e region0 region1 payload0 payload1
    ml variant with hrl0
  have hinit := rl_init_fields s_b p_b s_e p_e region0 region1 payload0
    payload1 ml variant
  have hfields := rl_iter_fields rl0 k
  have hmaskf : (rl_iter rl0 k).mask_layer = ml := by
    rw [hfields.2.2.2.2.2.2.2.2.2.1, hinit.2.2.2.2.1]
  have hpast : (rl_iter rl0 k).is_past_exit = variant := by
    rw [hfields.2.2.2.2.2.2.1]
    simp only [hrl0, rl_init]
  have hr0 : (rl_iter rl0 k).region0 = region0 := by
    rw [hfields.2.2.2.2.2.2.2.2.2.2.1, hinit.2.2.2.2.2.1]
  have hr1 : (rl_iter rl0 k).region1 = region1 := by
    rw [hfields.2.2.2.2.2.2.2.2.2.2.2, hinit.2.2.2.2.2.2]
  have hflag : (rl_iter rl0 k).scanline_has_endpoint =
      decide (k = 0 ∨ s_b + (k : Int) = s_e) := by
    rcases Nat.eq_zero_or_pos k with hk0 | hk0
    · subst hk0
      simp only [rl_iter, Function.iterate_zero, id_eq]
      rw [hrl0, hinit.2.2.2.1]
      simp
    · have hkk : rl0.s + (k : Int) ≤ rl0.s_e := by
        rw [hrl0, hinit.1, hinit.2.2.1]
        exact hk
      rw [rl_iter_flag_of_le rl0 k hk0 hkk]
      rw [hrl0, hinit.1, hinit.2.2.1]
      have hne0 : ¬ (k = 0) := by omega
      simp [hne0]
  have hdelta : rl_delta_inside (rl_iter rl0 k) =
      (if k = 0 ∨ s_b + (k : Int) = s_e then 1 else 2) *
        (if variant then -1 else 1) := by
    unfold rl_delta_inside
    rw [hflag, hpast]
    by_cases hcond : k = 0 ∨ s_b + (k : Int) = s_e
    · simp [hcond]
    · simp [hcond]
  constructor
  · intro hmask r
    unfold apply_rl_insideness
    rw [hmaskf, if_pos hmask, hr0, hr1, ← hdelta]
    by_cases h0 : r = region0
    · subst h0
      by_cases h1 : r = region1
      · subst h1
        simp
      · simp [h1]
    · by_cases h1 : r = region1
      · subst h1
        simp [h0]
      · simp [h0, h1]
  · intro hmask
    unfold apply_rl_insideness
    rw [hmaskf, if_neg (by simp [hmask])]

/-- Witness for C2 on a concrete interior scanline of a steep enter rl. -/
theorem c2_insideness_contribution_witness :
    ((0 : Int) + (1 : Nat) ≤ 2) ∧
    (Int.land 1 1 ≠ 0 ∧
      apply_rl_insideness
        (rl_iter (rl_init 0 0 2 6 3 5 0 0 1 false) 1) 1 (fun _ => 0) 3 =
      (0 : Int) + 2 + 0) := by
  have h := (c2_insideness_contribution 0 0 2 6 3 5 0 0 1 1 false 1
    (fun _ => 0) (by omega)).1 (by decide) 3
  refine ⟨by omega, by decide, ?_⟩
  rw [h]
  decide

/-- C3: at a position flushed by `rasterize_to_buffer`, the region written is
the lowest-numbered region with positive insideness: whenever some drawable
region `r1` is positive (in particular when two overlapping filled polygons
both have positive insideness), the flush selects a region no higher than
`r1`, that region is positive, every lower region is non-positive, and the
reserved unused region id 8 is never selected. -/
theorem c3_flush_lowest_region (ins : Int → Int) (r1 : Int)
    (h0 : 0 ≤ r1) (h1 : r1 < RL_NUM_REGIONS) (hpos : 0 < ins r1) :
    ∃ r, flush_region ins = some r ∧ 0 ≤ r ∧ r ≤ r1 ∧ r < RL_NUM_REGIONS ∧
      r ≠ RL_REGION_UNUSED ∧ 0 < ins r ∧
      ∀ r', 0 ≤ r' → r' < r → ins r' ≤ 0 := by
  have hL : ((List.range RL_NUM_REGIONS.toNat).map (Int.ofNat ·)) =
      [0, 1, 2, 3, 4, 5, 6, 7] := by decide
  unfold flush_region
  rw [hL]
  unfold RL_NUM_REGIONS at h1
  have hmem : r1 ∈ ([0, 1, 2, 3, 4, 5, 6, 7] : List Int) := by
    interval_cases r1 <;> decide
  have hex : (([0, 1, 2, 3, 4, 5, 6, 7] : List Int).find?
      (fun r => decide (0 < ins r))).isSome := by
    rw [List.find?_isSome]
    exact ⟨r1, hmem, by simpa using hpos⟩
  obtain ⟨r, hr⟩ := Option.isSome_iff_exists.mp hex
  rw [List.find?_eq_some] at hr
  obtain ⟨hp, as, bs, happ, hall⟩ := hr
  have hrpos : 0 < ins r := by simpa using hp
  have hrmem : r ∈ ([0, 1, 2, 3, 4, 5, 6, 7] : List Int) := by
    rw [happ]
    simp
  have hrbound : 0 ≤ r ∧ r < 8 := by
    have : ∀ x ∈ ([0, 1, 2, 3, 4, 5, 6, 7] : List Int), 0 ≤ x ∧ x < 8 := by
      decide
    exact this r hrmem
  have hsorted : (([0, 1, 2, 3, 4, 5, 6, 7] : List Int)).Pairwise (· < ·) := by
    decide
  rw [happ] at hsorted
  rw [List.pairwise_append] at hsorted
  have has_lt : ∀ x ∈ as, x < r := fun x hx =>
    hsorted.2.2 x hx r (List.mem_cons_self _ _)
  have hbs_gt : ∀ x ∈ bs, r < x :=
    (List.pairwise_cons.mp hsorted.2.1).1
  have hmin : ∀ r', 0 ≤ r' → r' < r → ins r' ≤ 0 := by
    intro r' hr'0 hr'lt
    have hr'mem : r' ∈ ([0, 1, 2, 3, 4, 5, 6, 7] : List Int) := by
      have hb : r' < 8 := by omega
      interval_cases r' <;> decide
    rw [happ] at hr'mem
    rcases List.mem_append.mp hr'mem with hin | hin
    · have := hall r' hin
      simp at this
      omega
    · rcases List.mem_cons.mp hin with heq | hin
      · omega
      · have := hbs_gt r' hin
        omega
  have hrler1 : r ≤ r1 := by
    by_contra hgt
    have := hmin r1 h0 (by omega)
    omega
  refine ⟨r, ?_, hrbound.1, hrler1, ?_, ?_, hrpos, hmin⟩
  · rw [List.find?_eq_some]
    exact ⟨hp, as, bs, happ, hall⟩
  · unfold RL_NUM_REGIONS
    omega
  · unfold RL_REGION_UNUSED RL_NUM_REGIONS
    omega

/-- Witness for C3: with regions 2 and 5 both positive (two overlapping
polygons), the flush draws region 2. -/
theorem c3_flush_lowest_region_witness :
    ((0 : Int) ≤ 5 ∧ (5 : Int) < RL_NUM_REGIONS ∧
      (0 : Int) < (fun r : Int => if r = 2 ∨ r = 5 then (1 : Int) else 0) 5) ∧
    ∃ r, flush_region (fun r : Int => if r = 2 ∨ r = 5 then (1 : Int) else 0) =
        some r ∧ 0 ≤ r ∧ r ≤ 5 ∧ r < RL_NUM_REGIONS ∧
      r ≠ RL_REGION_UNUSED ∧
      0 < (fun r : Int => if r = 2 ∨ r = 5 then (1 : Int) else 0) r ∧
      ∀ r', 0 ≤ r' → r' < r →
        (fun r : Int => if r = 2 ∨ r = 5 then (1 : Int) else 0) r' ≤ 0 :=
  ⟨⟨by decide, by decide, by decide⟩,
    c3_flush_lowest_region
      (fun r : Int => if r = 2 ∨ r = 5 then (1 : Int) else 0) 5
      (by decide) (by decide) (by decide)⟩

/-! Toolkit for the Bresenham correspondence (C1): window uniqueness for the
DDA error accumulator, floor-division characterizations, and the evolution of
the `p` and `a` fields of an rl across scanline steps. -/

theorem window_unique {c x m n : Int} (hc : 0 < c)
    (hm0 : 0 ≤ x - m * c) (hm1 : x - m * c < c)
    (hn0 : 0 ≤ x - n * c) (hn1 : x - n * c < c) : m = n := by
  have h1 : m * c < (n + 1) * c := by nlinarith
  have h2 : n * c < (m + 1) * c := by nlinarith
  have h3 : m < n + 1 := lt_of_mul_lt_mul_right h1 (le_of_lt hc)
  have h4 : n < m + 1 := lt_of_mul_lt_mul_right h2 (le_of_lt hc)
  omega

theorem fdiv_char {c x : Int} (hc : 0 < c) :
    c * (x.fdiv c) ≤ x ∧ x < c * (x.fdiv c + 1) := by
  rw [Int.fdiv_eq_ediv _ (le_of_lt hc)]
  have h := Int.ediv_add_emod x c
  have h1 := Int.emod_nonneg x (ne_of_gt hc)
  have h2 := Int.emod_lt_of_pos x hc
  have h3 : c * (x / c + 1) = c * (x / c) + c := by ring
  constructor <;> linarith

/-- The `p` and `a` fields after one scanline step of an rl that is not at its
final scanline and does not hit the endpoint correction. -/
theorem rl_increment_s_p_a (rl : RL) (hne : rl.s ≠ rl.s_e)
    (h2 : rl.s + 1 = rl.s_e → rl.correct_endpoints = false) :
    (rl_increment_s rl).a =
      (if rl.a + rl.a_s ≥ (if rl.a_m_is_a_p then rl.a_p else rl.a_s) then
        rl.a + rl.a_s -
          ((rl.a + rl.a_s - (if rl.a_m_is_a_p then rl.a_p else rl.a_s)).fdiv
            rl.a_p + 1) * rl.a_p
      else rl.a + rl.a_s) ∧
    (rl_increment_s rl).p =
      (if rl.a + rl.a_s ≥ (if rl.a_m_is_a_p then rl.a_p else rl.a_s) then
        (if rl.delta_p_is_positive then
          rl.p + ((rl.a + rl.a_s -
            (if rl.a_m_is_a_p then rl.a_p else rl.a_s)).fdiv rl.a_p + 1)
        else
          rl.p - ((rl.a + rl.a_s -
            (if rl.a_m_is_a_p then rl.a_p else rl.a_s)).fdiv rl.a_p + 1))
      else rl.p) := by
  simp only [rl_increment_s, if_neg hne]
  by_cases harr : rl.s + 1 = rl.s_e
  · have hcorr := h2 harr
    simp only [if_pos harr, hcorr, Bool.false_eq_true, if_false]
    split <;> exact ⟨by split <;> simp, by split <;> simp⟩
  · simp only [if_neg harr]
    split <;> exact ⟨by split <;> simp, by split <;> simp⟩

/-- The `p` and `a` fields after the arrival step onto the final scanline of
an rl with the endpoint-correction flag set: `p` is patched to the stored
`p_e`. -/
theorem rl_increment_s_corrected (rl : RL) (hne : rl.s ≠ rl.s_e)
    (harr : rl.s + 1 = rl.s_e) (hcorr : rl.correct_endpoints = true) :
    (rl_increment_s rl).p = rl.p_e ∧
    (rl_increment_s rl).a =
      (if rl.a + rl.a_s ≥ (if rl.a_m_is_a_p then rl.a_p else rl.a_s) then
        rl.a + rl.a_s -
          ((rl.a + rl.a_s - (if rl.a_m_is_a_p then rl.a_p else rl.a_s)).fdiv
            rl.a_p + 1) * rl.a_p
      else rl.a + rl.a_s) := by
  simp only [rl_increment_s, if_neg hne, if_pos harr, hcorr, if_true]
  refine ⟨by simp, by split <;> (split <;> simp)⟩

/-- Fields set by `rl_init` in the degenerate single-scanline case. -/
theorem rl_init_ds0 (s_b p_b s_e p_e r0 r1 pl0 pl1 ml : Int) (v : Bool)
    (h0 : s_e - s_b = 0) :
    (rl_init s_b p_b s_e p_e r0 r1 pl0 pl1 ml v).p =
      (if v then (if p_e > p_b then p_e else p_b) + 1
       else (if p_e < p_b then p_e else p_b)) := by
  simp only [rl_init, h0, if_pos rfl]
  cases v <;> rfl

/-- Fields set by `rl_init` in the shallow (or horizontal-in-`p`) case. -/
theorem rl_init_shallow (s_b p_b s_e p_e r0 r1 pl0 pl1 ml : Int) (v : Bool)
    (h0 : ¬(s_e - s_b = 0))
    (hP : ¬((if p_e - p_b < 0 then -(p_e - p_b) else p_e - p_b) >
      s_e - s_b)) :
    (rl_init s_b p_b s_e p_e r0 r1 pl0 pl1 ml v).p =
      (if v then p_b + 1 else p_b) ∧
    (rl_init s_b p_b s_e p_e r0 r1 pl0 pl1 ml v).a = s_e - s_b ∧
    (rl_init s_b p_b s_e p_e r0 r1 pl0 pl1 ml v).a_s =
      2 * (if p_e - p_b < 0 then -(p_e - p_b) else p_e - p_b) ∧
    (rl_init s_b p_b s_e p_e r0 r1 pl0 pl1 ml v).a_p = 2 * (s_e - s_b) ∧
    (rl_init s_b p_b s_e p_e r0 r1 pl0 pl1 ml v).a_m_is_a_p = true ∧
    (rl_init s_b p_b s_e p_e r0 r1 pl0 pl1 ml v).correct_endpoints = false ∧
    (rl_init s_b p_b s_e p_e r0 r1 pl0 pl1 ml v).delta_p_is_positive =
      decide (0 ≤ p_e - p_b) := by
  simp only [rl_init, if_neg h0, hP]
  simp [hP]

/-- Fields set by `rl_init` in the steep case without endpoint correction
(positive-`delta_p` enter, or negative-`delta_p` past-exit). -/
theorem rl_init_steep_plain (s_b p_b s_e p_e r0 r1 pl0 pl1 ml : Int)
    (v : Bool) (h0 : ¬(s_e - s_b = 0))
    (hP : (if p_e - p_b < 0 then -(p_e - p_b) else p_e - p_b) > s_e - s_b)
    (hvar : decide (0 ≤ p_e - p_b) = !v) :
    (rl_init s_b p_b s_e p_e r0 r1 pl0 pl1 ml v).p =
      (if v then p_b + 1 else p_b) ∧
    (rl_init s_b p_b s_e p_e r0 r1 pl0 pl1 ml v).a =
      (if p_e - p_b < 0 then -(p_e - p_b) else p_e - p_b) ∧
    (rl_init s_b p_b s_e p_e r0 r1 pl0 pl1 ml v).a_s =
      2 * (if p_e - p_b < 0 then -(p_e - p_b) else p_e - p_b) ∧
    (rl_init s_b p_b s_e p_e r0 r1 pl0 pl1 ml v).a_p = 2 * (s_e - s_b) ∧
    (rl_init s_b p_b s_e p_e r0 r1 pl0 pl1 ml v).a_m_is_a_p = false ∧
    (rl_init s_b p_b s_e p_e r0 r1 pl0 pl1 ml v).correct_endpoints = false ∧
    (rl_init s_b p_b s_e p_e r0 r1 pl0 pl1 ml v).delta_p_is_positive =
      decide (0 ≤ p_e - p_b) := by
  cases v <;>
    simp only [Bool.not_true, Bool.not_false] at hvar <;>
    simp only [rl_init, if_neg h0, hP, hvar] <;>
    simp [hvar]

/-- Fields set by `rl_init` in the steep case with endpoint correction
(positive-`delta_p` past-exit, or negative-`delta_p` enter). -/
theorem rl_init_steep_corrected (s_b p_b s_e p_e r0 r1 pl0 pl1 ml : Int)
    (v : Bool) (h0 : ¬(s_e - s_b = 0))
    (hP : (if p_e - p_b < 0 then -(p_e - p_b) else p_e - p_b) > s_e - s_b)
    (hvar : decide (0 ≤ p_e - p_b) = v) :
    (rl_init s_b p_b s_e p_e r0 r1 pl0 pl1 ml v).p =
      (if v then p_b else p_b + 1) +
        (if v then
          ((if p_e - p_b < 0 then -(p_e - p_b) else p_e - p_b).fdiv
            (2 * (s_e - s_b)) + 1)
        else
          -((if p_e - p_b < 0 then -(p_e - p_b) else p_e - p_b).fdiv
            (2 * (s_e - s_b)) + 1)) ∧
    (rl_init s_b p_b s_e p_e r0 r1 pl0 pl1 ml v).a =
      (if p_e - p_b < 0 then -(p_e - p_b) else p_e - p_b) +
        2 * (if p_e - p_b < 0 then -(p_e - p_b) else p_e - p_b) -
        ((if p_e - p_b < 0 then -(p_e - p_b) else p_e - p_b).fdiv
          (2 * (s_e - s_b)) + 1) * (2 * (s_e - s_b)) ∧
    (rl_init s_b p_b s_e p_e r0 r1 pl0 pl1 ml v).a_s =
      2 * (if p_e - p_b < 0 then -(p_e - p_b) else p_e - p_b) ∧
    (rl_init s_b p_b s_e p_e r0 r1 pl0 pl1 ml v).a_p = 2 * (s_e - s_b) ∧
    (rl_init s_b p_b s_e p_e r0 r1 pl0 pl1 ml v).a_m_is_a_p = false ∧
    (rl_init s_b p_b s_e p_e r0 r1 pl0 pl1 ml v).correct_endpoints = true ∧
    (rl_init s_b p_b s_e p_e r0 r1 pl0 pl1 ml v).delta_p_is_positive =
      decide (0 ≤ p_e - p_b) ∧
    (rl_init s_b p_b s_e p_e r0 r1 pl0 pl1 ml v).p_e =
      (if v then p_e + 1 else p_e) := by
  cases v
  · simp only [rl_init, if_neg h0, hP, hvar]
    try simp [hvar]
    try ring
  · simp only [rl_init, if_neg h0, hP, hvar]
    try simp [hvar]
    try ring

theorem fdiv_eq_zero_of_nonneg_lt {c x : Int} (hc : 0 < c) (h0 : 0 ≤ x)
    (h1 : x < c) : x.fdiv c = 0 := by
  have hch := fdiv_char (x := x) hc
  refine window_unique (c := c) (x := x) hc ?_ ?_ ?_ ?_ <;>
    [skip; skip; simpa using h0; simpa using h1]
  · nlinarith [hch.1]
  · nlinarith [hch.2]

/-- Evolution of the `p` and `a` fields of a shallow rl: at scanline
`s_b + k` there is a step count `j` with `p = base + dir * j` and the DDA
error accumulator in the window `[0, 2 * d_s)`. -/
theorem rl_shallow_invariant (s_b p_b s_e p_e r0 r1 pl0 pl1 ml : Int)
    (v : Bool) (hD : 0 < s_e - s_b)
    (hPD : ¬((if p_e - p_b < 0 then -(p_e - p_b) else p_e - p_b) >
      s_e - s_b)) (k : Nat) (hk : (k : Int) ≤ s_e - s_b) :
    ∃ j : Int,
      (rl_iter (rl_init s_b p_b s_e p_e r0 r1 pl0 pl1 ml v) k).p =
        (if v then p_b + 1 else p_b) +
          (if 0 ≤ p_e - p_b then j else -j) ∧
      (rl_iter (rl_init s_b p_b s_e p_e r0 r1 pl0 pl1 ml v) k).a =
        (s_e - s_b) +
          2 * k * (if p_e - p_b < 0 then -(p_e - p_b) else p_e - p_b) -
          2 * j * (s_e - s_b) ∧
      0 ≤ (rl_iter (rl_init s_b p_b s_e p_e r0 r1 pl0 pl1 ml v) k).a ∧
      (rl_iter (rl_init s_b p_b s_e p_e r0 r1 pl0 pl1 ml v) k).a <
        2 * (s_e - s_b) := by
  have hPnn : 0 ≤ (if p_e - p_b < 0 then -(p_e - p_b) else p_e - p_b) := by
    split <;> omega
  have hinit := rl_init_shallow s_b p_b s_e p_e r0 r1 pl0 pl1 ml v
    (by omega) hPD
  have hinit0 := rl_init_fields s_b p_b s_e p_e r0 r1 pl0 pl1 ml v
  set rl0 := rl_init s_b p_b s_e p_e r0 r1 pl0 pl1 ml v with hrl0
  induction k with
  | zero =>
    refine ⟨0, ?_, ?_, ?_, ?_⟩ <;>
      simp only [rl_iter, Function.iterate_zero, id_eq, Nat.cast_zero]
    · rw [hinit.1]
      split <;> simp
    · rw [hinit.2.1]
      ring
    · rw [hinit.2.1]
      omega
    · rw [hinit.2.1]
      omega
  | succ k ih =>
    obtain ⟨j, hp, ha, ha0, ha1⟩ := ih (by push_cast at hk ⊢; omega)
    have hfields := rl_iter_fields rl0 k
    have hs : (rl_iter rl0 k).s = s_b + k := by
      have h1 : rl0.s = s_b := hinit0.1
      have h2 : rl0.s_e = s_e := hinit0.2.2.1
      rw [rl_iter_s_of_le rl0 k (by rw [h1, h2]; push_cast at hk ⊢; omega),
        h1]
    have hse : (rl_iter rl0 k).s_e = s_e := by
      rw [hfields.2.1, hinit0.2.2.1]
    have hne : (rl_iter rl0 k).s ≠ (rl_iter rl0 k).s_e := by
      rw [hs, hse]
      push_cast at hk ⊢
      omega
    have hcorr : (rl_iter rl0 k).correct_endpoints = false := by
      rw [hfields.2.2.2.2.2.2.2.2.1, hinit.2.2.2.2.2.1]
    have hamap : (rl_iter rl0 k).a_m_is_a_p = true := by
      rw [hfields.2.2.2.2.2.2.2.1, hinit.2.2.2.2.1]
    have has : (rl_iter rl0 k).a_s =
        2 * (if p_e - p_b < 0 then -(p_e - p_b) else p_e - p_b) := by
      rw [hfields.2.2.2.1, hinit.2.2.1]
    have hap : (rl_iter rl0 k).a_p = 2 * (s_e - s_b) := by
      rw [hfields.2.2.2.2.1, hinit.2.2.2.1]
    have hdp : (rl_iter rl0 k).delta_p_is_positive =
        decide (0 ≤ p_e - p_b) := by
      rw [hfields.2.2.2.2.2.1, hinit.2.2.2.2.2.2]
    have hstep := rl_increment_s_p_a (rl_iter rl0 k) hne
      (fun _ => hcorr)
    rw [hamap, if_pos rfl, has, hap, hdp] at hstep
    have hiter : rl_iter rl0 (k + 1) = rl_increment_s (rl_iter rl0 k) := by
      rw [rl_iter, Function.iterate_succ_apply']
      rfl
    set P := (if p_e - p_b < 0 then -(p_e - p_b) else p_e - p_b) with hP
    set A := (rl_iter rl0 k).a with hA
    have hPle : P ≤ s_e - s_b := by omega
    by_cases hbig : A + 2 * P ≥ 2 * (s_e - s_b)
    · have hf0 : (A + 2 * P - 2 * (s_e - s_b)).fdiv (2 * (s_e - s_b)) = 0 :=
        fdiv_eq_zero_of_nonneg_lt (by omega) (by omega) (by omega)
      simp only [if_pos hbig, hf0] at hstep
      refine ⟨j + 1, ?_, ?_, ?_, ?_⟩
      · rw [hiter, hstep.2]
        by_cases hdir : 0 ≤ p_e - p_b <;> simp [hdir] at hp ⊢ <;>
          linarith [hp]
      · rw [hiter, hstep.1]
        push_cast
        linear_combination ha
      · rw [hiter, hstep.1]
        omega
      · rw [hiter, hstep.1]
        omega
    · simp only [if_neg hbig] at hstep
      refine ⟨j, ?_, ?_, ?_, ?_⟩
      · rw [hiter, hstep.2]
        exact hp
      · rw [hiter, hstep.1]
        push_cast
        linear_combination ha
      · rw [hiter, hstep.1]
        omega
      · rw [hiter, hstep.1]
        omega

/-- Evolution of the `p` and `a` fields of a steep rl without endpoint
correction (positive-`delta_p` enter or negative-`delta_p` past-exit): `a`
stays in `[0, 2 * d_p)`, and in the tight window `[2*d_p - 2*d_s, 2*d_p)`
after the first step. -/
theorem rl_steep_plain_invariant (s_b p_b s_e p_e r0 r1 pl0 pl1 ml : Int)
    (v : Bool) (hD : 0 < s_e - s_b)
    (hPD : (if p_e - p_b < 0 then -(p_e - p_b) else p_e - p_b) > s_e - s_b)
    (hvar : decide (0 ≤ p_e - p_b) = !v)
    (k : Nat) (hk : (k : Int) ≤ s_e - s_b) :
    ∃ j : Int,
      (rl_iter (rl_init s_b p_b s_e p_e r0 r1 pl0 pl1 ml v) k).p =
        (if v then p_b + 1 else p_b) +
          (if 0 ≤ p_e - p_b then j else -j) ∧
      (rl_iter (rl_init s_b p_b s_e p_e r0 r1 pl0 pl1 ml v) k).a =
        (if p_e - p_b < 0 then -(p_e - p_b) else p_e - p_b) +
          2 * k * (if p_e - p_b < 0 then -(p_e - p_b) else p_e - p_b) -
          2 * j * (s_e - s_b) ∧
      0 ≤ (rl_iter (rl_init s_b p_b s_e p_e r0 r1 pl0 pl1 ml v) k).a ∧
      (rl_iter (rl_init s_b p_b s_e p_e r0 r1 pl0 pl1 ml v) k).a <
        2 * (if p_e - p_b < 0 then -(p_e - p_b) else p_e - p_b) ∧
      (1 ≤ k →
        2 * (if p_e - p_b < 0 then -(p_e - p_b) else p_e - p_b) -
          2 * (s_e - s_b) ≤
        (rl_iter (rl_init s_b p_b s_e p_e r0 r1 pl0 pl1 ml v) k).a) ∧
      (k = 0 → j = 0) := by
  have hPnn : 0 < (if p_e - p_b < 0 then -(p_e - p_b) else p_e - p_b) := by
    omega
  have hinit := rl_init_steep_plain s_b p_b s_e p_e r0 r1 pl0 pl1 ml v
    (by omega) hPD hvar
  have hinit0 := rl_init_fields s_b p_b s_e p_e r0 r1 pl0 pl1 ml v
  set rl0 := rl_init s_b p_b s_e p_e r0 r1 pl0 pl1 ml v with hrl0
  induction k with
  | zero =>
    refine ⟨0, ?_, ?_, ?_, ?_, ?_, ?_⟩ <;>
      simp only [rl_iter, Function.iterate_zero, id_eq, Nat.cast_zero]
    · rw [hinit.1]
      split <;> simp
    · rw [hinit.2.1]
      ring
    · rw [hinit.2.1]
      omega
    · rw [hinit.2.1]
      omega
    · intro h
      omega
    · intro h
      trivial
  | succ k ih =>
    obtain ⟨j, hp, ha, ha0, ha1, _, _⟩ := ih (by push_cast at hk ⊢; omega)
    have hfields := rl_iter_fields rl0 k
    have hs : (rl_iter rl0 k).s = s_b + k := by
      have h1 : rl0.s = s_b := hinit0.1
      have h2 : rl0.s_e = s_e := hinit0.2.2.1
      rw [rl_iter_s_of_le rl0 k (by rw [h1, h2]; push_cast at hk ⊢; omega),
        h1]
    have hse : (rl_iter rl0 k).s_e = s_e := by
      rw [hfields.2.1, hinit0.2.2.1]
    have hne : (rl_iter rl0 k).s ≠ (rl_iter rl0 k).s_e := by
      rw [hs, hse]
      push_cast at hk ⊢
      omega
    have hcorr : (rl_iter rl0 k).correct_endpoints = false := by
      rw [hfields.2.2.2.2.2.2.2.2.1, hinit.2.2.2.2.2.1]
    have hamap : (rl_iter rl0 k).a_m_is_a_p = false := by
      rw [hfields.2.2.2.2.2.2.2.1, hinit.2.2.2.2.1]
    have has : (rl_iter rl0 k).a_s =
        2 * (if p_e - p_b < 0 then -(p_e - p_b) else p_e - p_b) := by
      rw [hfields.2.2.2.1, hinit.2.2.1]
    have hap : (rl_iter rl0 k).a_p = 2 * (s_e - s_b) := by
      rw [hfields.2.2.2.2.1, hinit.2.2.2.1]
    have hdp : (rl_iter rl0 k).delta_p_is_positive =
        decide (0 ≤ p_e - p_b) := by
      rw [hfields.2.2.2.2.2.1, hinit.2.2.2.2.2.2]
    have hstep := rl_increment_s_p_a (rl_iter rl0 k) hne
      (fun _ => hcorr)
    rw [hamap] at hstep
    simp only [Bool.false_eq_true, if_false] at hstep
    rw [has, hap, hdp] at hstep
    have hiter : rl_iter rl0 (k + 1) = rl_increment_s (rl_iter rl0 k) := by
      rw [rl_iter, Function.iterate_succ_apply']
      rfl
    set P := (if p_e - p_b < 0 then -(p_e - p_b) else p_e - p_b) with hP
    set A := (rl_iter rl0 k).a with hA
    have hbig : A + 2 * P ≥ 2 * P := by omega
    simp only [if_pos hbig] at hstep
    have hargsimp : A + 2 * P - 2 * P = A := by ring
    rw [hargsimp] at hstep
    set q := A.fdiv (2 * (s_e - s_b)) with hq
    have hqchar := fdiv_char (c := 2 * (s_e - s_b)) (x := A) (by omega)
    rw [← hq] at hqchar
    refine ⟨j + (q + 1), ?_, ?_, ?_, ?_, ?_, ?_⟩
    · rw [hiter, hstep.2]
      by_cases hdir : 0 ≤ p_e - p_b <;> simp [hdir] at hp ⊢ <;>
        linarith [hp]
    · rw [hiter, hstep.1]
      push_cast
      linear_combination ha
    · rw [hiter, hstep.1]
      linarith [hqchar.1, hPD]
    · rw [hiter, hstep.1]
      linarith [hqchar.2]
    · intro h
      rw [hiter, hstep.1]
      linarith [hqchar.1]
    · intro h
      omega

/-- Evolution of the `p` and `a` fields of a steep rl with endpoint
correction (positive-`delta_p` past-exit or negative-`delta_p` enter): the
window is tight from the start, and on arrival at the final scanline `p` is
patched to the stored corrected endpoint. -/
theorem rl_steep_corrected_invariant (s_b p_b s_e p_e r0 r1 pl0 pl1 ml : Int)
    (v : Bool) (hD : 0 < s_e - s_b)
    (hPD : (if p_e - p_b < 0 then -(p_e - p_b) else p_e - p_b) > s_e - s_b)
    (hvar : decide (0 ≤ p_e - p_b) = v)
    (k : Nat) (hk : (k : Int) ≤ s_e - s_b) :
    ∃ j : Int,
      ((k : Int) < s_e - s_b →
        (rl_iter (rl_init s_b p_b s_e p_e r0 r1 pl0 pl1 ml v) k).p =
          (if v then p_b else p_b + 1) +
            (if 0 ≤ p_e - p_b then j else -j)) ∧
      ((k : Int) = s_e - s_b →
        (rl_iter (rl_init s_b p_b s_e p_e r0 r1 pl0 pl1 ml v) k).p =
          (if v then p_e + 1 else p_e)) ∧
      (rl_iter (rl_init s_b p_b s_e p_e r0 r1 pl0 pl1 ml v) k).a =
        (if p_e - p_b < 0 then -(p_e - p_b) else p_e - p_b) +
          2 * ((k : Int) + 1) *
            (if p_e - p_b < 0 then -(p_e - p_b) else p_e - p_b) -
          2 * j * (s_e - s_b) ∧
      2 * (if p_e - p_b < 0 then -(p_e - p_b) else p_e - p_b) -
        2 * (s_e - s_b) ≤
        (rl_iter (rl_init s_b p_b s_e p_e r0 r1 pl0 pl1 ml v) k).a ∧
      (rl_iter (rl_init s_b p_b s_e p_e r0 r1 pl0 pl1 ml v) k).a <
        2 * (if p_e - p_b < 0 then -(p_e - p_b) else p_e - p_b) := by
  have hPnn : 0 < (if p_e - p_b < 0 then -(p_e - p_b) else p_e - p_b) := by
    omega
  have hinit := rl_init_steep_corrected s_b p_b s_e p_e r0 r1 pl0 pl1 ml v
    (by omega) hPD hvar
  have hinit0 := rl_init_fields s_b p_b s_e p_e r0 r1 pl0 pl1 ml v
  have hvp : ∀ x y : Int,
      (if 0 ≤ p_e - p_b then x else y) = (if v = true then x else y) := by
    intro x y
    cases v
    · simp only [decide_eq_false_iff_not] at hvar
      simp [hvar]
    · simp only [decide_eq_true_eq] at hvar
      simp [hvar]
  set rl0 := rl_init s_b p_b s_e p_e r0 r1 pl0 pl1 ml v with hrl0
  induction k with
  | zero =>
    have hn0char := fdiv_char (c := 2 * (s_e - s_b))
      (x := (if p_e - p_b < 0 then -(p_e - p_b) else p_e - p_b)) (by omega)
    refine ⟨(if p_e - p_b < 0 then -(p_e - p_b) else p_e - p_b).fdiv
      (2 * (s_e - s_b)) + 1, ?_, ?_, ?_, ?_, ?_⟩ <;>
      simp only [rl_iter, Function.iterate_zero, id_eq, Nat.cast_zero]
    · intro _
      rw [hinit.1, hvp]
    · intro h
      omega
    · rw [hinit.2.1]
      ring
    · rw [hinit.2.1]
      linarith [hn0char.1]
    · rw [hinit.2.1]
      linarith [hn0char.2]
  | succ k ih =>
    obtain ⟨j, hp, _, ha, ha0, ha1⟩ := ih (by push_cast at hk ⊢; omega)
    have hfields := rl_iter_fields rl0 k
    have hs : (rl_iter rl0 k).s = s_b + k := by
      have h1 : rl0.s = s_b := hinit0.1
      have h2 : rl0.s_e = s_e := hinit0.2.2.1
      rw [rl_iter_s_of_le rl0 k (by rw [h1, h2]; push_cast at hk ⊢; omega),
        h1]
    have hse : (rl_iter rl0 k).s_e = s_e := by
      rw [hfields.2.1, hinit0.2.2.1]
    have hne : (rl_iter rl0 k).s ≠ (rl_iter rl0 k).s_e := by
      rw [hs, hse]
      push_cast at hk ⊢
      omega
    have hcorr : (rl_iter rl0 k).correct_endpoints = true := by
      rw [hfields.2.2.2.2.2.2.2.2.1, hinit.2.2.2.2.2.1]
    have hamap : (rl_iter rl0 k).a_m_is_a_p = false := by
      rw [hfields.2.2.2.2.2.2.2.1, hinit.2.2.2.2.1]
    have has : (rl_iter rl0 k).a_s =
        2 * (if p_e - p_b < 0 then -(p_e - p_b) else p_e - p_b) := by
      rw [hfields.2.2.2.1, hinit.2.2.1]
    have hap : (rl_iter rl0 k).a_p = 2 * (s_e - s_b) := by
      rw [hfields.2.2.2.2.1, hinit.2.2.2.1]
    have hdp : (rl_iter rl0 k).delta_p_is_positive =
        decide (0 ≤ p_e - p_b) := by
      rw [hfields.2.2.2.2.2.1, hinit.2.2.2.2.2.2.1]
    have hiter : rl_iter rl0 (k + 1) = rl_increment_s (rl_iter rl0 k) := by
      rw [rl_iter, Function.iterate_succ_apply']
      rfl
    set P := (if p_e - p_b < 0 then -(p_e - p_b) else p_e - p_b) with hP
    set A := (rl_iter rl0 k).a with hA
    set q := A.fdiv (2 * (s_e - s_b)) with hq
    have hqchar := fdiv_char (c := 2 * (s_e - s_b)) (x := A) (by omega)
    rw [← hq] at hqchar
    by_cases harr : ((k : Int) + 1) = s_e - s_b
    · -- arrival step: the endpoint correction fires
      have hnearr : (rl_iter rl0 k).s + 1 = (rl_iter rl0 k).s_e := by
        rw [hs, hse]
        omega
      have hstepc := rl_increment_s_corrected (rl_iter rl0 k) hne hnearr
        hcorr
      rw [hamap] at hstepc
      simp only [Bool.false_eq_true, if_false] at hstepc
      rw [has, hap] at hstepc
      have hbig : A + 2 * P ≥ 2 * P := by omega
      simp only [if_pos hbig] at hstepc
      have hargsimp : A + 2 * P - 2 * P = A := by ring
      rw [hargsimp] at hstepc
      have hpe : (rl_iter rl0 k).p_e = (if v then p_e + 1 else p_e) := by
        rw [hfields.2.2.1, hinit.2.2.2.2.2.2.2]
      refine ⟨j + (q + 1), ?_, ?_, ?_, ?_, ?_⟩
      · intro hlt
        exfalso
        push_cast at hlt
        omega
      · intro _
        rw [hiter, hstepc.1, hpe]
      · rw [hiter, hstepc.2]
        push_cast
        linear_combination ha
      · rw [hiter, hstepc.2]
        linarith [hqchar.1]
      · rw [hiter, hstepc.2]
        linarith [hqchar.2]
    · -- interior step
      have hstep := rl_increment_s_p_a (rl_iter rl0 k) hne
        (fun harr2 => False.elim (by
          rw [hs, hse] at harr2
          push_cast at hk
          omega))
      rw [hamap] at hstep
      simp only [Bool.false_eq_true, if_false] at hstep
      rw [has, hap, hdp] at hstep
      have hbig : A + 2 * P ≥ 2 * P := by omega
      simp only [if_pos hbig] at hstep
      have hargsimp : A + 2 * P - 2 * P = A := by ring
      rw [hargsimp] at hstep
      have hklt : (k : Int) < s_e - s_b := by push_cast at hk; omega
      have hpk := hp hklt
      refine ⟨j + (q + 1), ?_, ?_, ?_, ?_, ?_⟩
      · intro _
        rw [hiter, hstep.2]
        by_cases hdir : 0 ≤ p_e - p_b <;> simp [hdir] at hpk ⊢ <;>
          linarith [hpk]
      · intro heq
        exfalso
        push_cast at heq
        omega
      · rw [hiter, hstep.1]
        push_cast
        linear_combination ha
      · rw [hiter, hstep.1]
        linarith [hqchar.1]
      · rw [hiter, hstep.1]
        linarith [hqchar.2]

theorem rl_increment_s_at_end (rl : RL) (h : rl.s = rl.s_e) :
    rl_increment_s rl = rl := by
  simp [rl_increment_s, h]

theorem rl_iter_at_end (rl : RL) (h : rl.s = rl.s_e) (k : Nat) :
    rl_iter rl k = rl := by
  induction k with
  | zero => rfl
  | succ k ih =>
    rw [rl_iter, Function.iterate_succ_apply',
      show rl_increment_s^[k] rl = rl_iter rl k from rfl, ih,
      rl_increment_s_at_end rl h]

/-- Pixels plotted by the reference Bresenham loop on a segment contained in
one scanline: every position between the two endpoints, walked from begin to
end. -/
theorem bres_vertical_mem (s_b p_b p_e sx sy P : Int) (fuel : Nat)
    (t : Int) (hP : 0 ≤ P) (hsy : sy * P = p_e - p_b)
    (hsy1 : sy = 1 ∨ sy = -1) (ht : 0 ≤ t) (htP : t ≤ P)
    (hfuel : P - t ≤ fuel) (s p : Int) :
    ((s, p) ∈ bresenhamSteps fuel s_b (p_b + sy * t) s_b p_e 0 (-P) sx sy
        (-P) ↔
      ∃ u : Int, t ≤ u ∧ u ≤ P ∧ s = s_b ∧ p = p_b + sy * u) := by
  induction fuel generalizing t with
  | zero =>
    have ht' : t = P := by omega
    simp only [bresenhamSteps, List.mem_singleton, Prod.mk.injEq]
    constructor
    · rintro ⟨rfl, rfl⟩
      exact ⟨t, le_refl _, by omega, rfl, rfl⟩
    · rintro ⟨u, hu1, hu2, rfl, rfl⟩
      have : u = t := by omega
      subst this
      exact ⟨rfl, rfl⟩
  | succ fuel ih =>
    by_cases hstop : t = P
    · have hy : p_b + sy * t = p_e := by
        rcases hsy1 with h1 | h1 <;> subst h1 <;> omega
      simp only [bresenhamSteps]
      rw [if_pos ⟨trivial, hy⟩]
      simp only [List.mem_singleton, Prod.mk.injEq]
      constructor
      · rintro ⟨rfl, rfl⟩
        exact ⟨t, le_refl _, by omega, rfl, rfl⟩
      · rintro ⟨u, hu1, hu2, rfl, rfl⟩
        have : u = t := by omega
        subst this
        exact ⟨rfl, rfl⟩
    · have htP' : t < P := by omega
      have hP1 : 1 ≤ P := by omega
      have hy : ¬(True ∧ p_b + sy * t = p_e) := by
        rintro ⟨-, habs⟩
        rcases hsy1 with h1 | h1 <;> subst h1 <;> omega
      simp only [bresenhamSteps]
      rw [if_neg hy]
      have hxcond : ¬((2 : Int) * -P > -P) := by omega
      have hycond : ((2 : Int) * -P ≤ (0 : Int)) := by omega
      rw [if_neg hxcond, if_neg hxcond, if_pos hycond, if_pos hycond]
      have harg : p_b + sy * t + sy = p_b + sy * (t + 1) := by ring
      have harg2 : -P + 0 = -P := by ring
      rw [harg, harg2]
      simp only [List.mem_cons, Prod.mk.injEq]
      rw [ih (t + 1) (by omega) (by omega) (by omega)]
      constructor
      · rintro (⟨rfl, rfl⟩ | ⟨u, hu1, hu2, rfl, rfl⟩)
        · exact ⟨t, le_refl _, by omega, rfl, rfl⟩
        · exact ⟨u, by omega, hu2, rfl, rfl⟩
      · rintro ⟨u, hu1, hu2, rfl, rfl⟩
        by_cases hut : u = t
        · subst hut
          exact Or.inl ⟨rfl, rfl⟩
        · exact Or.inr ⟨u, by omega, hu2, rfl, rfl⟩

/-- Pixels plotted by the reference Bresenham loop on a shallow segment:
exactly one position per scanline, characterized by the midpoint window
`0 ≤ D + 2uP - 2mD < 2D`. -/
theorem bres_shallow_mem (s_b p_b s_e p_e sx sy D P : Int) (fuel : Nat)
    (t j err : Int) (hD : 0 < D) (hDdef : D = s_e - s_b) (hsx : sx = 1)
    (hsy : sy * P = p_e - p_b) (hsy1 : sy = 1 ∨ sy = -1)
    (hPD : P ≤ D) (hPnn : 0 ≤ P) (ht : 0 ≤ t) (htD : t ≤ D)
    (hwin : 0 ≤ D + 2 * t * P - 2 * j * D)
    (hwin2 : D + 2 * t * P - 2 * j * D < 2 * D)
    (herr : 2 * err = 3 * D - 2 * P - (D + 2 * t * P - 2 * j * D))
    (hfuel : D - t ≤ fuel) (s p : Int) :
    ((s, p) ∈ bresenhamSteps fuel (s_b + t) (p_b + sy * j) s_e p_e D (-P)
        sx sy err ↔
      ∃ u m : Int, t ≤ u ∧ u ≤ D ∧ s = s_b + u ∧ p = p_b + sy * m ∧
        0 ≤ D + 2 * u * P - 2 * m * D ∧
        D + 2 * u * P - 2 * m * D < 2 * D) := by
  induction fuel generalizing t j err with
  | zero =>
    have ht' : t = D := by omega
    simp only [bresenhamSteps, List.mem_singleton, Prod.mk.injEq]
    constructor
    · rintro ⟨hs, hp⟩
      exact ⟨t, j, le_refl _, by omega, hs, hp, hwin, hwin2⟩
    · rintro ⟨u, m, hu1, hu2, hs, hp, hm1, hm2⟩
      have hut : u = t := by omega
      rw [hut] at hm1 hm2
      have hmj : m = j := by
        refine window_unique (c := 2 * D) (x := D + 2 * t * P) (by omega)
          ?_ ?_ ?_ ?_
        · linarith [hm1]
        · linarith [hm2]
        · linarith [hwin]
        · linarith [hwin2]
      constructor
      · omega
      · rw [hp, hmj]
  | succ fuel ih =>
    by_cases hstop : t = D
    · have htp : 2 * t * P - 2 * D * P = 0 := by rw [hstop]; ring
      have hjP : j = P := by
        refine window_unique (c := 2 * D) (x := D + 2 * t * P) (by omega)
          ?_ ?_ ?_ ?_
        · linarith [hwin]
        · linarith [hwin2]
        · linarith [htp]
        · linarith [htp]
      have hxe : s_b + t = s_e := by omega
      have hye : p_b + sy * j = p_e := by
        rw [hjP]
        omega
      simp only [bresenhamSteps]
      rw [if_pos ⟨hxe, hye⟩]
      simp only [List.mem_singleton, Prod.mk.injEq]
      constructor
      · rintro ⟨hs, hp⟩
        exact ⟨t, j, le_refl _, by omega, hs, hp, hwin, hwin2⟩
      · rintro ⟨u, m, hu1, hu2, hs, hp, hm1, hm2⟩
        have hut : u = t := by omega
        rw [hut] at hm1 hm2
        have hmj : m = j := by
          refine window_unique (c := 2 * D) (x := D + 2 * t * P) (by omega)
            ?_ ?_ ?_ ?_
          · linarith [hm1]
          · linarith [hm2]
          · linarith [hwin]
          · linarith [hwin2]
        constructor
        · omega
        · rw [hp, hmj]
    · have htD' : t < D := by omega
      have hnstop : ¬(s_b + t = s_e ∧ p_b + sy * j = p_e) := by
        rintro ⟨habs, -⟩
        omega
      simp only [bresenhamSteps]
      rw [if_neg hnstop]
      have hxcond : 2 * err > -P := by linarith
      rw [if_pos hxcond, if_pos hxcond]
      have hx1 : s_b + t + sx = s_b + (t + 1) := by rw [hsx]; ring
      by_cases hycond : 2 * err ≤ D
      · rw [if_pos hycond, if_pos hycond]
        have hy1 : p_b + sy * j + sy = p_b + sy * (j + 1) := by ring
        rw [hx1, hy1]
        simp only [List.mem_cons, Prod.mk.injEq]
        rw [ih (t + 1) (j + 1) (err + -P + D) (by omega) (by omega)
          (by linarith) (by linarith) (by linear_combination herr)
          (by omega)]
        constructor
        · rintro (⟨hs, hp⟩ | ⟨u, m, hu1, hu2, hs, hp, hm1, hm2⟩)
          · exact ⟨t, j, le_refl _, by omega, hs, hp, hwin, hwin2⟩
          · exact ⟨u, m, by omega, hu2, hs, hp, hm1, hm2⟩
        · rintro ⟨u, m, hu1, hu2, hs, hp, hm1, hm2⟩
          by_cases hut : u = t
          · rw [hut] at hm1 hm2 hs
            have hmj : m = j := by
              refine window_unique (c := 2 * D) (x := D + 2 * t * P)
                (by omega) ?_ ?_ ?_ ?_
              · linarith [hm1]
              · linarith [hm2]
              · linarith [hwin]
              · linarith [hwin2]
            rw [hmj] at hp
            exact Or.inl ⟨hs, hp⟩
          · exact Or.inr ⟨u, m, by omega, hu2, hs, hp, hm1, hm2⟩
      · rw [if_neg hycond, if_neg hycond]
        rw [hx1]
        simp only [List.mem_cons, Prod.mk.injEq]
        rw [ih (t + 1) j (err + -P) (by omega) (by omega)
          (by linarith) (by linarith) (by linear_combination herr)
          (by omega)]
        constructor
        · rintro (⟨hs, hp⟩ | ⟨u, m, hu1, hu2, hs, hp, hm1, hm2⟩)
          · exact ⟨t, j, le_refl _, by omega, hs, hp, hwin, hwin2⟩
          · exact ⟨u, m, by omega, hu2, hs, hp, hm1, hm2⟩
        · rintro ⟨u, m, hu1, hu2, hs, hp, hm1, hm2⟩
          by_cases hut : u = t
          · rw [hut] at hm1 hm2 hs
            have hmj : m = j := by
              refine window_unique (c := 2 * D) (x := D + 2 * t * P)
                (by omega) ?_ ?_ ?_ ?_
              · linarith [hm1]
              · linarith [hm2]
              · linarith [hwin]
              · linarith [hwin2]
            rw [hmj] at hp
            exact Or.inl ⟨hs, hp⟩
          · exact Or.inr ⟨u, m, by omega, hu2, hs, hp, hm1, hm2⟩

/-- Pixels plotted by the reference Bresenham loop on a steep segment: one
position step per pixel, with the scanline of the `u`-th position step
characterized by the window `0 ≤ 2uD + P - 1 - 2mP < 2P`. -/
theorem bres_steep_mem (s_b p_b s_e p_e sx sy D P : Int) (fuel : Nat)
    (t i err : Int) (hD : 0 < D) (hDdef : D = s_e - s_b) (hsx : sx = 1)
    (hsy : sy * P = p_e - p_b) (hsy1 : sy = 1 ∨ sy = -1)
    (hPD : D < P) (ht : 0 ≤ t) (htP : t ≤ P)
    (hwin : 0 ≤ 2 * t * D + P - 1 - 2 * i * P)
    (hwin2 : 2 * t * D + P - 1 - 2 * i * P < 2 * P)
    (herr : 2 * err = 2 * D - 3 * P + 1 + (2 * t * D + P - 1 - 2 * i * P))
    (hfuel : P - t ≤ fuel) (s p : Int) :
    ((s, p) ∈ bresenhamSteps fuel (s_b + i) (p_b + sy * t) s_e p_e D (-P)
        sx sy err ↔
      ∃ u m : Int, t ≤ u ∧ u ≤ P ∧ s = s_b + m ∧ p = p_b + sy * u ∧
        0 ≤ 2 * u * D + P - 1 - 2 * m * P ∧
        2 * u * D + P - 1 - 2 * m * P < 2 * P) := by
  induction fuel generalizing t i err with
  | zero =>
    have ht' : t = P := by omega
    have htd : 2 * t * D - 2 * P * D = 0 := by rw [ht']; ring
    have hiD : i = D := by
      refine window_unique (c := 2 * P) (x := 2 * t * D + P - 1) (by omega)
        ?_ ?_ ?_ ?_
      · linarith [hwin]
      · linarith [hwin2]
      · linarith [htd]
      · linarith [htd]
    simp only [bresenhamSteps, List.mem_singleton, Prod.mk.injEq]
    constructor
    · rintro ⟨hs, hp⟩
      exact ⟨t, i, le_refl _, by omega, hs, hp, hwin, hwin2⟩
    · rintro ⟨u, m, hu1, hu2, hs, hp, hm1, hm2⟩
      have hut : u = t := by omega
      rw [hut] at hm1 hm2 hp
      have hmi : m = i := by
        refine window_unique (c := 2 * P) (x := 2 * t * D + P - 1)
          (by omega) ?_ ?_ ?_ ?_
        · linarith [hm1]
        · linarith [hm2]
        · linarith [hwin]
        · linarith [hwin2]
      constructor
      · rw [hs, hmi]
      · exact hp
  | succ fuel ih =>
    by_cases hstop : t = P
    · have htd : 2 * t * D - 2 * P * D = 0 := by rw [hstop]; ring
      have hiD : i = D := by
        refine window_unique (c := 2 * P) (x := 2 * t * D + P - 1)
          (by omega) ?_ ?_ ?_ ?_
        · linarith [hwin]
        · linarith [hwin2]
        · linarith [htd]
        · linarith [htd]
      have hxe : s_b + i = s_e := by omega
      have hye : p_b + sy * t = p_e := by
        rcases hsy1 with h1 | h1 <;> subst h1 <;> omega
      simp only [bresenhamSteps]
      rw [if_pos ⟨hxe, hye⟩]
      simp only [List.mem_singleton, Prod.mk.injEq]
      constructor
      · rintro ⟨hs, hp⟩
        exact ⟨t, i, le_refl _, by omega, hs, hp, hwin, hwin2⟩
      · rintro ⟨u, m, hu1, hu2, hs, hp, hm1, hm2⟩
        have hut : u = t := by omega
        rw [hut] at hm1 hm2 hp
        have hmi : m = i := by
          refine window_unique (c := 2 * P) (x := 2 * t * D + P - 1)
            (by omega) ?_ ?_ ?_ ?_
          · linarith [hm1]
          · linarith [hm2]
          · linarith [hwin]
          · linarith [hwin2]
        constructor
        · rw [hs, hmi]
        · exact hp
    · have htP' : t < P := by omega
      have hnstop : ¬(s_b + i = s_e ∧ p_b + sy * t = p_e) := by
        rintro ⟨-, habs⟩
        rcases hsy1 with h1 | h1 <;> subst h1 <;> omega
      simp only [bresenhamSteps]
      rw [if_neg hnstop]
      have hycond : 2 * err ≤ D := by linarith
      rw [if_pos hycond, if_pos hycond]
      have hy1 : p_b + sy * t + sy = p_b + sy * (t + 1) := by ring
      by_cases hxcond : 2 * err > -P
      · rw [if_pos hxcond, if_pos hxcond]
        have hx1 : s_b + i + sx = s_b + (i + 1) := by rw [hsx]; ring
        rw [hx1, hy1]
        simp only [List.mem_cons, Prod.mk.injEq]
        rw [ih (t + 1) (i + 1) (err + -P + D) (by omega) (by omega)
          (by linarith) (by linarith) (by linear_combination herr)
          (by omega)]
        constructor
        · rintro (⟨hs, hp⟩ | ⟨u, m, hu1, hu2, hs, hp, hm1, hm2⟩)
          · exact ⟨t, i, le_refl _, by omega, hs, hp, hwin, hwin2⟩
          · exact ⟨u, m, by omega, hu2, hs, hp, hm1, hm2⟩
        · rintro ⟨u, m, hu1, hu2, hs, hp, hm1, hm2⟩
          by_cases hut : u = t
          · rw [hut] at hm1 hm2 hp
            have hmi : m = i := by
              refine window_unique (c := 2 * P) (x := 2 * t * D + P - 1)
                (by omega) ?_ ?_ ?_ ?_
              · linarith [hm1]
              · linarith [hm2]
              · linarith [hwin]
              · linarith [hwin2]
            rw [hmi] at hs
            exact Or.inl ⟨hs, hp⟩
          · exact Or.inr ⟨u, m, by omega, hu2, hs, hp, hm1, hm2⟩
      · rw [if_neg hxcond, if_neg hxcond]
        rw [hy1]
        simp only [List.mem_cons, Prod.mk.injEq]
        rw [ih (t + 1) i (err + D) (by omega) (by omega)
          (by linarith) (by linarith) (by linear_combination herr)
          (by omega)]
        constructor
        · rintro (⟨hs, hp⟩ | ⟨u, m, hu1, hu2, hs, hp, hm1, hm2⟩)
          · exact ⟨t, i, le_refl _, by omega, hs, hp, hwin, hwin2⟩
          · exact ⟨u, m, by omega, hu2, hs, hp, hm1, hm2⟩
        · rintro ⟨u, m, hu1, hu2, hs, hp, hm1, hm2⟩
          by_cases hut : u = t
          · rw [hut] at hm1 hm2 hp
            have hmi : m = i := by
              refine window_unique (c := 2 * P) (x := 2 * t * D + P - 1)
                (by omega) ?_ ?_ ?_ ?_
              · linarith [hm1]
              · linarith [hm2]
              · linarith [hwin]
              · linarith [hwin2]
            rw [hmi] at hs
            exact Or.inl ⟨hs, hp⟩
          · exact Or.inr ⟨u, m, by omega, hu2, hs, hp, hm1, hm2⟩

/-- On an interior scanline of a steep segment, the contiguous run of minor
steps `u` plotted by Bresenham is exactly the half-open interval from the
plain rl's step count to the corrected rl's step count. -/
theorem steep_run_interior (D P k jlo jhi u : Int)
    (hD : 0 < D) (hPD : D < P) (hk0 : 0 ≤ k) (hkD : k < D)
    (hlo0 : k = 0 → jlo = 0)
    (hlo2 : P + 2 * k * P - 2 * jlo * D < 2 * P)
    (hlo3 : 1 ≤ k → 2 * P - 2 * D ≤ P + 2 * k * P - 2 * jlo * D)
    (hhi1 : 2 * P - 2 * D ≤ P + 2 * (k + 1) * P - 2 * jhi * D)
    (hhi2 : P + 2 * (k + 1) * P - 2 * jhi * D < 2 * P) :
    (jlo ≤ u ∧ u < jhi) ↔
      (0 ≤ u ∧ u ≤ P ∧ 0 ≤ 2 * u * D + P - 1 - 2 * k * P ∧
        2 * u * D + P - 1 - 2 * k * P < 2 * P) := by
  have hkP : (k - 1) * P ≥ 0 ∨ k = 0 := by
    rcases eq_or_lt_of_le hk0 with h | h
    · exact Or.inr h.symm
    · exact Or.inl (mul_nonneg (by omega) (by omega))
  constructor
  · rintro ⟨hu1, hu2⟩
    have hud : jlo * D ≤ u * D := mul_le_mul_of_nonneg_right hu1 hD.le
    have hud2 : u * D ≤ (jhi - 1) * D :=
      mul_le_mul_of_nonneg_right (by omega) hD.le
    have hkD2 : (k + 1) * P ≤ D * P :=
      mul_le_mul_of_nonneg_right (by omega) (by omega)
    have hjlo0 : 0 ≤ jlo := by
      rcases hkP with hkp | hk0'
      · by_contra hneg
        push_neg at hneg
        have : jlo * D ≤ (-1) * D := mul_le_mul_of_nonneg_right
          (by omega) hD.le
        nlinarith
      · rw [hlo0 hk0']
    have huP : u ≤ P := by
      by_contra hgt
      push_neg at hgt
      have h1 : (P + 1) * D ≤ u * D :=
        mul_le_mul_of_nonneg_right (by omega) hD.le
      have h2 : D * P ≤ P * P := mul_le_mul_of_nonneg_right
        (by omega) (by omega)
      nlinarith
    refine ⟨by omega, huP, ?_, ?_⟩
    · rcases hkP with hkp | hk0'
      · have := hlo3 (by nlinarith)
        nlinarith
      · have h0 : 0 ≤ u * D := mul_nonneg (by omega) hD.le
        rw [hk0'] at hlo2 ⊢
        nlinarith
    · nlinarith
  · rintro ⟨hu0, huP, hw1, hw2⟩
    constructor
    · rcases hkP with hkp | hk0'
      · by_contra hlt
        push_neg at hlt
        have : u * D ≤ (jlo - 1) * D :=
          mul_le_mul_of_nonneg_right (by omega) hD.le
        have := hlo3 (by nlinarith)
        nlinarith
      · rw [hlo0 hk0']
        exact hu0
    · by_contra hge
      push_neg at hge
      have : jhi * D ≤ u * D := mul_le_mul_of_nonneg_right hge hD.le
      nlinarith

/-- On the final scanline of a steep segment, the run of minor steps `u`
plotted by Bresenham extends from the plain rl's step count through the full
minor extent `P`. -/
theorem steep_run_endpoint (D P jlo u : Int)
    (hD : 0 < D) (hPD : D < P)
    (hlo2 : P + 2 * D * P - 2 * jlo * D < 2 * P)
    (hlo3 : 2 * P - 2 * D ≤ P + 2 * D * P - 2 * jlo * D) :
    (jlo ≤ u ∧ u < P + 1) ↔
      (0 ≤ u ∧ u ≤ P ∧ 0 ≤ 2 * u * D + P - 1 - 2 * D * P ∧
        2 * u * D + P - 1 - 2 * D * P < 2 * P) := by
  have hDP1 : (D - 1) * P ≥ 0 := mul_nonneg (by omega) (by omega)
  constructor
  · rintro ⟨hu1, hu2⟩
    have hud : jlo * D ≤ u * D := mul_le_mul_of_nonneg_right hu1 hD.le
    have hjlo0 : 0 ≤ jlo := by
      by_contra hneg
      push_neg at hneg
      have : jlo * D ≤ (-1) * D := mul_le_mul_of_nonneg_right
        (by omega) hD.le
      nlinarith
    have hud2 : u * D ≤ P * D := mul_le_mul_of_nonneg_right
      (by omega) hD.le
    refine ⟨by omega, by omega, by nlinarith, by nlinarith⟩
  · rintro ⟨hu0, huP, hw1, hw2⟩
    refine ⟨?_, by omega⟩
    by_contra hlt
    push_neg at hlt
    have : u * D ≤ (jlo - 1) * D :=
      mul_le_mul_of_nonneg_right (by omega) hD.le
    nlinarith

/-- On a steep rising segment, the pixel span between the enter rl and the
past-exit rl at scanline `s_b + k` is exactly the Bresenham run window. -/
theorem steep_span_pos (s_b p_b s_e p_e r0 r1 pl0 pl1 ml : Int)
    (hD : 0 < s_e - s_b) (hst : p_e - p_b > s_e - s_b)
    (k : Nat) (hk : (k : Int) ≤ s_e - s_b) (u : Int) :
    ((rl_iter (rl_init s_b p_b s_e p_e r0 r1 pl0 pl1 ml false) k).p ≤
        p_b + u ∧
      p_b + u <
        (rl_iter (rl_init s_b p_b s_e p_e r0 r1 pl0 pl1 ml true) k).p) ↔
      (0 ≤ u ∧ u ≤ p_e - p_b ∧
        0 ≤ 2 * u * (s_e - s_b) + (p_e - p_b) - 1 -
          2 * (k : Int) * (p_e - p_b) ∧
        2 * u * (s_e - s_b) + (p_e - p_b) - 1 -
          2 * (k : Int) * (p_e - p_b) < 2 * (p_e - p_b)) := by
  have hif : (if p_e - p_b < 0 then -(p_e - p_b) else p_e - p_b) =
      p_e - p_b := if_neg (by omega)
  have hPD : (if p_e - p_b < 0 then -(p_e - p_b) else p_e - p_b) >
      s_e - s_b := by rw [hif]; exact hst
  have hvarf : decide (0 ≤ p_e - p_b) = !false := by
    simp only [Bool.not_false, decide_eq_true_eq]
    omega
  have hvart : decide (0 ≤ p_e - p_b) = true := by
    simp only [decide_eq_true_eq]
    omega
  obtain ⟨jlo, hplo, halo, halo0, halo1, halo3, hlo00⟩ :=
    rl_steep_plain_invariant s_b p_b s_e p_e r0 r1 pl0 pl1 ml false hD hPD
      hvarf k hk
  obtain ⟨jhi, hphi, hphiE, hahi, hahi0, hahi1⟩ :=
    rl_steep_corrected_invariant s_b p_b s_e p_e r0 r1 pl0 pl1 ml true hD
      hPD hvart k hk
  rw [hif] at halo halo1 halo3 hahi hahi0 hahi1
  have h0le : 0 ≤ p_e - p_b := by omega
  simp only [if_pos h0le, Bool.false_eq_true, if_false,
    if_true] at hplo hphi hphiE
  rw [halo] at halo1 halo3
  rw [hahi] at hahi0 hahi1
  by_cases hkD : (k : Int) < s_e - s_b
  · have hrun := steep_run_interior (s_e - s_b) (p_e - p_b) (k : Int)
      jlo jhi u hD hst (Int.natCast_nonneg k) hkD
      (fun h => hlo00 (by exact_mod_cast h))
      halo1 (fun h => halo3 (by exact_mod_cast h)) hahi0 hahi1
    rw [hplo, hphi hkD]
    constructor
    · rintro ⟨h1, h2⟩
      exact hrun.mp ⟨by omega, by omega⟩
    · intro h
      have h2 := hrun.mpr h
      omega
  · have hkE : (k : Int) = s_e - s_b := by omega
    have hk1 : 1 ≤ k := by
      by_contra hk1
      push_neg at hk1
      interval_cases k
      omega
    rw [hkE] at halo1 halo3
    have hrun := steep_run_endpoint (s_e - s_b) (p_e - p_b) jlo u hD hst
      halo1 (halo3 hk1)
    rw [hplo, hphiE hkE, hkE]
    constructor
    · rintro ⟨h1, h2⟩
      exact hrun.mp ⟨by omega, by omega⟩
    · intro h
      have h2 := hrun.mpr h
      omega

/-- On a steep falling segment, the pixel span between the enter rl and the
past-exit rl at scanline `s_b + k` is exactly the Bresenham run window. -/
theorem steep_span_neg (s_b p_b s_e p_e r0 r1 pl0 pl1 ml : Int)
    (hD : 0 < s_e - s_b) (hst : -(p_e - p_b) > s_e - s_b)
    (k : Nat) (hk : (k : Int) ≤ s_e - s_b) (u : Int) :
    ((rl_iter (rl_init s_b p_b s_e p_e r0 r1 pl0 pl1 ml false) k).p ≤
        p_b - u ∧
      p_b - u <
        (rl_iter (rl_init s_b p_b s_e p_e r0 r1 pl0 pl1 ml true) k).p) ↔
      (0 ≤ u ∧ u ≤ -(p_e - p_b) ∧
        0 ≤ 2 * u * (s_e - s_b) + -(p_e - p_b) - 1 -
          2 * (k : Int) * -(p_e - p_b) ∧
        2 * u * (s_e - s_b) + -(p_e - p_b) - 1 -
          2 * (k : Int) * -(p_e - p_b) < 2 * -(p_e - p_b)) := by
  have hif : (if p_e - p_b < 0 then -(p_e - p_b) else p_e - p_b) =
      -(p_e - p_b) := if_pos (by omega)
  have hPD : (if p_e - p_b < 0 then -(p_e - p_b) else p_e - p_b) >
      s_e - s_b := by rw [hif]; exact hst
  have hvarf : decide (0 ≤ p_e - p_b) = false := by
    simp only [decide_eq_false_iff_not]
    omega
  have hvart : decide (0 ≤ p_e - p_b) = !true := by
    simp only [Bool.not_true, decide_eq_false_iff_not]
    omega
  obtain ⟨jlo, hplo, halo, halo0, halo1, halo3, hlo00⟩ :=
    rl_steep_plain_invariant s_b p_b s_e p_e r0 r1 pl0 pl1 ml true hD hPD
      hvart k hk
  obtain ⟨jhi, hphi, hphiE, hahi, hahi0, hahi1⟩ :=
    rl_steep_corrected_invariant s_b p_b s_e p_e r0 r1 pl0 pl1 ml false hD
      hPD hvarf k hk
  rw [hif] at halo halo1 halo3 hahi hahi0 hahi1
  have h0lt : ¬(0 ≤ p_e - p_b) := by omega
  simp only [if_neg h0lt, Bool.false_eq_true, if_false,
    if_true] at hplo hphi hphiE
  rw [halo] at halo1 halo3
  rw [hahi] at hahi0 hahi1
  by_cases hkD : (k : Int) < s_e - s_b
  · have hrun := steep_run_interior (s_e - s_b) (-(p_e - p_b)) (k : Int)
      jlo jhi u hD hst (Int.natCast_nonneg k) hkD
      (fun h => hlo00 (by exact_mod_cast h))
      halo1 (fun h => halo3 (by exact_mod_cast h)) hahi0 hahi1
    rw [hplo, hphi hkD]
    constructor
    · rintro ⟨h1, h2⟩
      exact hrun.mp ⟨by omega, by omega⟩
    · intro h
      have h2 := hrun.mpr h
      omega
  · have hkE : (k : Int) = s_e - s_b := by omega
    have hk1 : 1 ≤ k := by
      by_contra hk1
      push_neg at hk1
      interval_cases k
      omega
    rw [hkE] at halo1 halo3
    have hrun := steep_run_endpoint (s_e - s_b) (-(p_e - p_b)) jlo u hD hst
      halo1 (halo3 hk1)
    rw [hplo, hphiE hkE, hkE]
    constructor
    · rintro ⟨h1, h2⟩
      exact hrun.mp ⟨by omega, by omega⟩
    · intro h
      have h2 := hrun.mpr h
      omega

/-- On a shallow (or horizontal-in-`p`) segment, the pixel span between the
enter rl and the past-exit rl at scanline `s_b + k` is the single Bresenham
pixel selected by the midpoint window. -/
theorem shallow_span (s_b p_b s_e p_e r0 r1 pl0 pl1 ml : Int)
    (hD : 0 < s_e - s_b)
    (hsh : ¬((if p_e - p_b < 0 then -(p_e - p_b) else p_e - p_b) >
      s_e - s_b))
    (k : Nat) (hk : (k : Int) ≤ s_e - s_b) (p : Int) :
    ((rl_iter (rl_init s_b p_b s_e p_e r0 r1 pl0 pl1 ml false) k).p ≤ p ∧
      p < (rl_iter (rl_init s_b p_b s_e p_e r0 r1 pl0 pl1 ml true) k).p) ↔
      (∃ m : Int, p = p_b + (if 0 ≤ p_e - p_b then m else -m) ∧
        0 ≤ (s_e - s_b) +
          2 * (k : Int) *
            (if p_e - p_b < 0 then -(p_e - p_b) else p_e - p_b) -
          2 * m * (s_e - s_b) ∧
        (s_e - s_b) +
          2 * (k : Int) *
            (if p_e - p_b < 0 then -(p_e - p_b) else p_e - p_b) -
          2 * m * (s_e - s_b) < 2 * (s_e - s_b)) := by
  obtain ⟨j0, hp0, ha0, ha00, ha01⟩ :=
    rl_shallow_invariant s_b p_b s_e p_e r0 r1 pl0 pl1 ml false hD hsh k hk
  obtain ⟨j1, hp1, ha1, ha10, ha11⟩ :=
    rl_shallow_invariant s_b p_b s_e p_e r0 r1 pl0 pl1 ml true hD hsh k hk
  rw [ha0] at ha00 ha01
  rw [ha1] at ha10 ha11
  have hj : j0 = j1 := by
    refine window_unique (c := 2 * (s_e - s_b))
      (x := (s_e - s_b) + 2 * (k : Int) *
        (if p_e - p_b < 0 then -(p_e - p_b) else p_e - p_b)) (by omega)
      ?_ ?_ ?_ ?_
    · linarith [ha00]
    · linarith [ha01]
    · linarith [ha10]
    · linarith [ha11]
  simp only [Bool.false_eq_true, if_false, if_true] at hp0 hp1
  rw [hp0, hp1, ← hj] at *
  constructor
  · rintro ⟨h1, h2⟩
    refine ⟨j0, ?_, by linarith [ha00], by linarith [ha01]⟩
    by_cases hsgn : 0 ≤ p_e - p_b <;> simp only [if_pos, if_neg, hsgn,
      if_true, if_false] at h1 h2 ⊢ <;> omega
  · rintro ⟨m, hpm, hw0, hw1⟩
    have hmj : m = j0 := by
      refine window_unique (c := 2 * (s_e - s_b))
        (x := (s_e - s_b) + 2 * (k : Int) *
          (if p_e - p_b < 0 then -(p_e - p_b) else p_e - p_b)) (by omega)
        ?_ ?_ ?_ ?_
      · linarith [hw0]
      · linarith [hw1]
      · linarith [ha00]
      · linarith [ha01]
    rw [hmj] at hpm
    by_cases hsgn : 0 ≤ p_e - p_b <;> simp only [if_pos, if_neg, hsgn,
      if_true, if_false] at hpm ⊢ <;> omega

/-- Case of the rasterizer/Bresenham correspondence for a segment contained
in a single scanline. -/
theorem c1_vertical (s_b p_b s_e p_e r0 r1 pl0 pl1 ml : Int)
    (h0 : s_e = s_b) (s p : Int) :
    ((s, p) ∈ bresenhamLine s_b p_b s_e p_e) ↔
      (s_b ≤ s ∧ s ≤ s_e ∧
        (rl_iter (rl_init s_b p_b s_e p_e r0 r1 pl0 pl1 ml false)
          (s - s_b).toNat).p ≤ p ∧
        p < (rl_iter (rl_init s_b p_b s_e p_e r0 r1 pl0 pl1 ml true)
          (s - s_b).toNat).p) := by
  rw [h0]
  have hfl0 := rl_init_fields s_b p_b s_b p_e r0 r1 pl0 pl1 ml false
  have hfl1 := rl_init_fields s_b p_b s_b p_e r0 r1 pl0 pl1 ml true
  rw [rl_iter_at_end _ (by rw [hfl0.1, hfl0.2.2.1]) _,
    rl_iter_at_end _ (by rw [hfl1.1, hfl1.2.2.1]) _,
    rl_init_ds0 s_b p_b s_b p_e r0 r1 pl0 pl1 ml false (by omega),
    rl_init_ds0 s_b p_b s_b p_e r0 r1 pl0 pl1 ml true (by omega)]
  simp only [eq_self_iff_true, Bool.false_eq_true, if_true, if_false]
  simp only [bresenhamLine]
  rw [sub_self, abs_zero, zero_add]
  by_cases hpe : p_b < p_e
  · have habs : |p_e - p_b| = p_e - p_b := abs_of_nonneg (by omega)
    rw [habs, if_pos hpe]
    have hmem := bres_vertical_mem s_b p_b p_e
      (if s_b < s_b then (1 : Int) else -1) 1 (p_e - p_b)
      ((0 - -(p_e - p_b)).toNat) 0 (by omega) (by ring) (Or.inl rfl)
      le_rfl (by omega) (by rw [Int.toNat_of_nonneg (by omega)]; omega) s p
    simp only [mul_zero, add_zero] at hmem
    rw [hmem, if_neg (by omega : ¬(p_e < p_b)),
      if_pos (by omega : p_e > p_b)]
    constructor
    · rintro ⟨u, h1, h2, rfl, rfl⟩
      refine ⟨le_refl _, le_refl _, by omega, by omega⟩
    · rintro ⟨h1, h2, h3, h4⟩
      exact ⟨p - p_b, by omega, by omega, by omega, by omega⟩
  · have habs : |p_e - p_b| = -(p_e - p_b) := abs_of_nonpos (by omega)
    rw [habs, if_neg hpe]
    have hmem := bres_vertical_mem s_b p_b p_e
      (if s_b < s_b then (1 : Int) else -1) (-1) (-(p_e - p_b))
      ((0 - - -(p_e - p_b)).toNat) 0 (by omega) (by ring) (Or.inr rfl)
      le_rfl (by omega) (by rw [Int.toNat_of_nonneg (by omega)]; omega) s p
    simp only [mul_zero, add_zero] at hmem
    rw [hmem]
    by_cases hlt : p_e < p_b
    · rw [if_pos hlt, if_neg (by omega : ¬(p_e > p_b))]
      constructor
      · rintro ⟨u, h1, h2, rfl, rfl⟩
        refine ⟨le_refl _, le_refl _, by omega, by omega⟩
      · rintro ⟨h1, h2, h3, h4⟩
        exact ⟨p_b - p, by omega, by omega, by omega, by omega⟩
    · rw [if_neg hlt, if_neg (by omega : ¬(p_e > p_b))]
      constructor
      · rintro ⟨u, h1, h2, rfl, rfl⟩
        refine ⟨le_refl _, le_refl _, by omega, by omega⟩
      · rintro ⟨h1, h2, h3, h4⟩
        exact ⟨p_b - p, by omega, by omega, by omega, by omega⟩

/-- Case of the rasterizer/Bresenham correspondence for a shallow segment
(at most one position step per scanline). -/
theorem c1_shallow (s_b p_b s_e p_e r0 r1 pl0 pl1 ml : Int)
    (hD : 0 < s_e - s_b)
    (hsh : ¬((if p_e - p_b < 0 then -(p_e - p_b) else p_e - p_b) >
      s_e - s_b)) (s p : Int) :
    ((s, p) ∈ bresenhamLine s_b p_b s_e p_e) ↔
      (s_b ≤ s ∧ s ≤ s_e ∧
        (rl_iter (rl_init s_b p_b s_e p_e r0 r1 pl0 pl1 ml false)
          (s - s_b).toNat).p ≤ p ∧
        p < (rl_iter (rl_init s_b p_b s_e p_e r0 r1 pl0 pl1 ml true)
          (s - s_b).toNat).p) := by
  simp only [bresenhamLine]
  rw [abs_of_nonneg (show (0 : Int) ≤ s_e - s_b by omega),
    if_pos (show s_b < s_e by omega)]
  rcases lt_trichotomy p_b p_e with hpos | heq | hneg
  · have habs : |p_e - p_b| = p_e - p_b := abs_of_nonneg (by omega)
    rw [habs, if_pos hpos]
    have hPle : p_e - p_b ≤ s_e - s_b := by
      rw [if_neg (by omega : ¬(p_e - p_b < 0))] at hsh
      omega
    have hmem := bres_shallow_mem s_b p_b s_e p_e 1 1 (s_e - s_b)
      (p_e - p_b) (((s_e - s_b) - -(p_e - p_b)).toNat) 0 0
      ((s_e - s_b) + -(p_e - p_b)) hD rfl rfl (by ring) (Or.inl rfl) hPle
      (by omega) le_rfl (by omega) (by ring_nf; omega) (by ring_nf; omega)
      (by ring) (by rw [Int.toNat_of_nonneg (by omega)]; omega) s p
    simp only [mul_zero, add_zero] at hmem
    rw [hmem]
    constructor
    · rintro ⟨u, m, hu0, huD, rfl, rfl, hw1, hw2⟩
      rw [show s_b + u - s_b = u from by ring]
      have hcast : ((u.toNat : Nat) : Int) = u := Int.toNat_of_nonneg hu0
      have hspan := shallow_span s_b p_b s_e p_e r0 r1 pl0 pl1 ml hD hsh
        u.toNat (by rw [hcast]; omega) (p_b + 1 * m)
      simp only [hcast, if_neg (show ¬(p_e - p_b < 0) by omega),
        if_pos (show (0 : Int) ≤ p_e - p_b by omega)] at hspan
      have hsp := hspan.mpr ⟨m, by ring, hw1, hw2⟩
      exact ⟨by omega, by omega, hsp.1, hsp.2⟩
    · rintro ⟨hs1, hs2, hp1, hp2⟩
      have hcast : (((s - s_b).toNat : Nat) : Int) = s - s_b :=
        Int.toNat_of_nonneg (by omega)
      have hspan := shallow_span s_b p_b s_e p_e r0 r1 pl0 pl1 ml hD hsh
        (s - s_b).toNat (by rw [hcast]; omega) p
      simp only [hcast, if_neg (show ¬(p_e - p_b < 0) by omega),
        if_pos (show (0 : Int) ≤ p_e - p_b by omega)] at hspan
      obtain ⟨m1, hpm1, hw1, hw2⟩ := hspan.mp ⟨hp1, hp2⟩
      exact ⟨s - s_b, m1, by omega, by omega, by omega, by omega, hw1, hw2⟩
  · rw [← heq, sub_self, abs_zero, if_neg (show ¬(p_b < p_b) by omega)]
    have hsh1 : ¬((if p_b - p_b < 0 then -(p_b - p_b) else p_b - p_b) >
        s_e - s_b) := by
      rw [if_neg (by omega)]
      omega
    have hmem := bres_shallow_mem s_b p_b s_e p_b 1 (-1) (s_e - s_b) 0
      (((s_e - s_b) - -0).toNat) 0 0 ((s_e - s_b) + -0) hD rfl rfl
      (by ring) (Or.inr rfl) (by omega) le_rfl le_rfl (by omega)
      (by ring_nf; omega) (by ring_nf; omega) (by ring)
      (by rw [Int.toNat_of_nonneg (by omega)]; omega) s p
    simp only [mul_zero, add_zero] at hmem
    rw [hmem]
    constructor
    · rintro ⟨u, m, hu0, huD, rfl, rfl, hw1, hw2⟩
      rw [show s_b + u - s_b = u from by ring]
      have hm0 : m = 0 := by
        refine window_unique (c := 2 * (s_e - s_b))
          (x := (s_e - s_b) + 2 * u * 0) (by omega) ?_ ?_ ?_ ?_
        · linarith [hw1]
        · linarith [hw2]
        · linarith [hD]
        · linarith [hD]
      have hcast : ((u.toNat : Nat) : Int) = u := Int.toNat_of_nonneg hu0
      have hspan := shallow_span s_b p_b s_e p_b r0 r1 pl0 pl1 ml hD hsh1
        u.toNat (by rw [hcast]; omega) (p_b + -1 * m)
      simp only [hcast, if_neg (show ¬(p_b - p_b < 0) by omega),
        if_pos (show (0 : Int) ≤ p_b - p_b by omega)] at hspan
      have hsp := hspan.mpr ⟨0, by omega, by linarith [hD], by linarith [hD]⟩
      exact ⟨by omega, by omega, hsp.1, hsp.2⟩
    · rintro ⟨hs1, hs2, hp1, hp2⟩
      have hcast : (((s - s_b).toNat : Nat) : Int) = s - s_b :=
        Int.toNat_of_nonneg (by omega)
      have hspan := shallow_span s_b p_b s_e p_b r0 r1 pl0 pl1 ml hD hsh1
        (s - s_b).toNat (by rw [hcast]; omega) p
      simp only [hcast, if_neg (show ¬(p_b - p_b < 0) by omega),
        if_pos (show (0 : Int) ≤ p_b - p_b by omega)] at hspan
      obtain ⟨m1, hpm1, hw1, hw2⟩ := hspan.mp ⟨hp1, hp2⟩
      have hm0 : m1 = 0 := by
        refine window_unique (c := 2 * (s_e - s_b))
          (x := (s_e - s_b) + 2 * (s - s_b) * 0) (by omega) ?_ ?_ ?_ ?_
        · linarith [hw1]
        · linarith [hw2]
        · linarith [hD]
        · linarith [hD]
      refine ⟨s - s_b, 0, by omega, by omega, by omega, by omega, ?_, ?_⟩
      · linarith [hD]
      · linarith [hD]
  · have habs : |p_e - p_b| = -(p_e - p_b) := abs_of_neg (by omega)
    rw [habs, if_neg (show ¬(p_b < p_e) by omega)]
    have hPle : -(p_e - p_b) ≤ s_e - s_b := by
      rw [if_pos (by omega : p_e - p_b < 0)] at hsh
      omega
    have hmem := bres_shallow_mem s_b p_b s_e p_e 1 (-1) (s_e - s_b)
      (-(p_e - p_b)) (((s_e - s_b) - - -(p_e - p_b)).toNat) 0 0
      ((s_e - s_b) + - -(p_e - p_b)) hD rfl rfl (by ring) (Or.inr rfl)
      hPle (by omega) le_rfl (by omega) (by ring_nf; omega)
      (by ring_nf; omega) (by ring)
      (by rw [Int.toNat_of_nonneg (by omega)]; omega) s p
    simp only [mul_zero, add_zero] at hmem
    rw [hmem]
    constructor
    · rintro ⟨u, m, hu0, huD, rfl, rfl, hw1, hw2⟩
      rw [show s_b + u - s_b = u from by ring]
      have hcast : ((u.toNat : Nat) : Int) = u := Int.toNat_of_nonneg hu0
      have hspan := shallow_span s_b p_b s_e p_e r0 r1 pl0 pl1 ml hD hsh
        u.toNat (by rw [hcast]; omega) (p_b + -1 * m)
      simp only [hcast, if_pos (show p_e - p_b < 0 by omega),
        if_neg (show ¬((0 : Int) ≤ p_e - p_b) by omega)] at hspan
      have hsp := hspan.mpr ⟨m, by ring, hw1, hw2⟩
      exact ⟨by omega, by omega, hsp.1, hsp.2⟩
    · rintro ⟨hs1, hs2, hp1, hp2⟩
      have hcast : (((s - s_b).toNat : Nat) : Int) = s - s_b :=
        Int.toNat_of_nonneg (by omega)
      have hspan := shallow_span s_b p_b s_e p_e r0 r1 pl0 pl1 ml hD hsh
        (s - s_b).toNat (by rw [hcast]; omega) p
      simp only [hcast, if_pos (show p_e - p_b < 0 by omega),
        if_neg (show ¬((0 : Int) ≤ p_e - p_b) by omega)] at hspan
      obtain ⟨m1, hpm1, hw1, hw2⟩ := hspan.mp ⟨hp1, hp2⟩
      exact ⟨s - s_b, m1, by omega, by omega, by omega, by omega, hw1, hw2⟩

/-- Case of the rasterizer/Bresenham correspondence for a steep segment
(possibly several position steps per scanline). -/
theorem c1_steep (s_b p_b s_e p_e r0 r1 pl0 pl1 ml : Int)
    (hD : 0 < s_e - s_b)
    (hst : (if p_e - p_b < 0 then -(p_e - p_b) else p_e - p_b) >
      s_e - s_b) (s p : Int) :
    ((s, p) ∈ bresenhamLine s_b p_b s_e p_e) ↔
      (s_b ≤ s ∧ s ≤ s_e ∧
        (rl_iter (rl_init s_b p_b s_e p_e r0 r1 pl0 pl1 ml false)
          (s - s_b).toNat).p ≤ p ∧
        p < (rl_iter (rl_init s_b p_b s_e p_e r0 r1 pl0 pl1 ml true)
          (s - s_b).toNat).p) := by
  simp only [bresenhamLine]
  rw [abs_of_nonneg (show (0 : Int) ≤ s_e - s_b by omega),
    if_pos (show s_b < s_e by omega)]
  by_cases hsgn : 0 ≤ p_e - p_b
  · have hlt : s_e - s_b < p_e - p_b := by
      rw [if_neg (by omega : ¬(p_e - p_b < 0))] at hst
      omega
    have habs : |p_e - p_b| = p_e - p_b := abs_of_nonneg (by omega)
    rw [habs, if_pos (show p_b < p_e by omega)]
    have hmem := bres_steep_mem s_b p_b s_e p_e 1 1 (s_e - s_b)
      (p_e - p_b) (((s_e - s_b) - -(p_e - p_b)).toNat) 0 0
      ((s_e - s_b) + -(p_e - p_b)) hD rfl rfl (by ring) (Or.inl rfl) hlt
      le_rfl (by omega) (by ring_nf; omega) (by ring_nf; omega) (by ring)
      (by rw [Int.toNat_of_nonneg (by omega)]; omega) s p
    simp only [mul_zero, add_zero] at hmem
    rw [hmem]
    constructor
    · rintro ⟨u, m, hu0, huP, rfl, rfl, hw1, hw2⟩
      have h1 : u * (s_e - s_b) ≤ (p_e - p_b) * (s_e - s_b) :=
        mul_le_mul_of_nonneg_right huP (by omega)
      have h3 : 0 ≤ u * (s_e - s_b) := mul_nonneg hu0 (by omega)
      have hmD : m ≤ s_e - s_b := by
        by_contra hgt
        push_neg at hgt
        have h2 : (s_e - s_b + 1) * (p_e - p_b) ≤ m * (p_e - p_b) :=
          mul_le_mul_of_nonneg_right (by omega) (by omega)
        nlinarith
      have hm0 : 0 ≤ m := by
        by_contra hneg0
        push_neg at hneg0
        have h4 : m * (p_e - p_b) ≤ (-1) * (p_e - p_b) :=
          mul_le_mul_of_nonneg_right (by omega) (by omega)
        nlinarith
      rw [show s_b + m - s_b = m from by ring, one_mul]
      have hcast : ((m.toNat : Nat) : Int) = m := Int.toNat_of_nonneg hm0
      have hspan := steep_span_pos s_b p_b s_e p_e r0 r1 pl0 pl1 ml hD
        (by omega) m.toNat (by rw [hcast]; omega) u
      rw [hcast] at hspan
      have hsp := hspan.mpr ⟨hu0, huP, hw1, hw2⟩
      exact ⟨by omega, by omega, hsp.1, hsp.2⟩
    · rintro ⟨hs1, hs2, hp1, hp2⟩
      have hcast : (((s - s_b).toNat : Nat) : Int) = s - s_b :=
        Int.toNat_of_nonneg (by omega)
      have hspan := steep_span_pos s_b p_b s_e p_e r0 r1 pl0 pl1 ml hD
        (by omega) (s - s_b).toNat (by rw [hcast]; omega) (p - p_b)
      rw [hcast, show p_b + (p - p_b) = p from by ring] at hspan
      obtain ⟨hu0, huP, hw1, hw2⟩ := hspan.mp ⟨hp1, hp2⟩
      exact ⟨p - p_b, s - s_b, hu0, huP, by omega, by omega, hw1, hw2⟩
  · have hlt : s_e - s_b < -(p_e - p_b) := by
      rw [if_pos (by omega : p_e - p_b < 0)] at hst
      omega
    have habs : |p_e - p_b| = -(p_e - p_b) := abs_of_neg (by omega)
    rw [habs, if_neg (show ¬(p_b < p_e) by omega)]
    have hmem := bres_steep_mem s_b p_b s_e p_e 1 (-1) (s_e - s_b)
      (-(p_e - p_b)) (((s_e - s_b) - - -(p_e - p_b)).toNat) 0 0
      ((s_e - s_b) + - -(p_e - p_b)) hD rfl rfl (by ring) (Or.inr rfl)
      hlt le_rfl (by omega) (by ring_nf; omega) (by ring_nf; omega)
      (by ring) (by rw [Int.toNat_of_nonneg (by omega)]; omega) s p
    simp only [mul_zero, add_zero] at hmem
    rw [hmem]
    constructor
    · rintro ⟨u, m, hu0, huP, rfl, rfl, hw1, hw2⟩
      have h1 : u * (s_e - s_b) ≤ (-(p_e - p_b)) * (s_e - s_b) :=
        mul_le_mul_of_nonneg_right huP (by omega)
      have h3 : 0 ≤ u * (s_e - s_b) := mul_nonneg hu0 (by omega)
      have hmD : m ≤ s_e - s_b := by
        by_contra hgt
        push_neg at hgt
        have h2 : (s_e - s_b + 1) * (-(p_e - p_b)) ≤ m * (-(p_e - p_b)) :=
          mul_le_mul_of_nonneg_right (by omega) (by omega)
        nlinarith
      have hm0 : 0 ≤ m := by
        by_contra hneg0
        push_neg at hneg0
        have h4 : m * (-(p_e - p_b)) ≤ (-1) * (-(p_e - p_b)) :=
          mul_le_mul_of_nonneg_right (by omega) (by omega)
        nlinarith
      rw [show s_b + m - s_b = m from by ring,
        show p_b + -1 * u = p_b - u from by ring]
      have hcast : ((m.toNat : Nat) : Int) = m := Int.toNat_of_nonneg hm0
      have hspan := steep_span_neg s_b p_b s_e p_e r0 r1 pl0 pl1 ml hD
        (by omega) m.toNat (by rw [hcast]; omega) u
      rw [hcast] at hspan
      have hsp := hspan.mpr ⟨hu0, huP, hw1, hw2⟩
      exact ⟨by omega, by omega, hsp.1, hsp.2⟩
    · rintro ⟨hs1, hs2, hp1, hp2⟩
      have hcast : (((s - s_b).toNat : Nat) : Int) = s - s_b :=
        Int.toNat_of_nonneg (by omega)
      have hspan := steep_span_neg s_b p_b s_e p_e r0 r1 pl0 pl1 ml hD
        (by omega) (s - s_b).toNat (by rw [hcast]; omega) (p_b - p)
      rw [hcast, show p_b - (p_b - p) = p from by ring] at hspan
      obtain ⟨hu0, huP, hw1, hw2⟩ := hspan.mp ⟨hp1, hp2⟩
      exact ⟨p_b - p, s - s_b, hu0, huP, by omega, by omega, hw1, hw2⟩

/-- C1: for every pair of endpoints with `s_e >= s_b` and every slope case
(steep, shallow, or contained in one scanline), the (scanline, position)
walk produced by `rl_init` followed by repeated `rl_increment_s` reproduces
exactly the pixel set of a textbook Bresenham rasterization of the segment
walked in the same direction: a pixel `(s, p)` is plotted by Bresenham if
and only if `s` lies between the endpoint scanlines and `p` lies in the
half-open span between the enter variant's position and the past-exit
variant's position on that scanline. -/
theorem c1_rl_matches_bresenham (s_b p_b s_e p_e r0 r1 pl0 pl1 ml : Int)
    (hse : s_b ≤ s_e) (s p : Int) :
    ((s, p) ∈ bresenhamLine s_b p_b s_e p_e) ↔
      (s_b ≤ s ∧ s ≤ s_e ∧
        (rl_iter (rl_init s_b p_b s_e p_e r0 r1 pl0 pl1 ml false)
          (s - s_b).toNat).p ≤ p ∧
        p < (rl_iter (rl_init s_b p_b s_e p_e r0 r1 pl0 pl1 ml true)
          (s - s_b).toNat).p) := by
  rcases eq_or_lt_of_le hse with h0 | h0
  · exact c1_vertical s_b p_b s_e p_e r0 r1 pl0 pl1 ml h0.symm s p
  · by_cases hst : (if p_e - p_b < 0 then -(p_e - p_b) else p_e - p_b) >
      s_e - s_b
    · exact c1_steep s_b p_b s_e p_e r0 r1 pl0 pl1 ml (by omega) hst s p
    · exact c1_shallow s_b p_b s_e p_e r0 r1 pl0 pl1 ml (by omega) hst s p

/-- Closed witness for C1 at a concrete steep segment. -/
theorem c1_rl_matches_bresenham_witness :
    (0 : Int) ≤ 2 ∧
      (((1 : Int), (2 : Int)) ∈ bresenhamLine 0 0 2 5 ↔
        ((0 : Int) ≤ 1 ∧ (1 : Int) ≤ 2 ∧
          (rl_iter (rl_init 0 0 2 5 0 0 0 0 1 false)
            ((1 : Int) - 0).toNat).p ≤ 2 ∧
          (2 : Int) < (rl_iter (rl_init 0 0 2 5 0 0 0 0 1 true)
            ((1 : Int) - 0).toNat).p)) :=
  ⟨by decide, c1_rl_matches_bresenham 0 0 2 5 0 0 0 0 1 (by decide) 1 2⟩

end TinyGolf

